import Mathlib

/-!
Verification of the gms MySQL client driver (wire layer, codecs,
handshake scramble, statement machine, binary row decoding).

Bytes are modelled as natural numbers; every byte produced by an embedded
writer is reduced modulo 256 exactly where the Go source truncates to a
byte.  Streams are lists of bytes; stateful connection code is embedded as
explicit state passing.  Loops of the source are embedded with an explicit
fuel argument; the theorems supply enough fuel and prove it suffices.
-/

namespace Gms

/-! ## Length-encoded integer codec (stream.go) -/

/-- Embedding of `conn.WriteLengthEncodedInt` (stream.go): emit the bytes
the Go writer would hand to `w.Write`.  `n` plays the role of the Go
`uint64` argument. -/
def writeLengthEncodedInt (n : Nat) : List Nat :=
  if n < 251 then
    [n]
  else if n < 2 ^ 16 then
    [0xfc, n % 256, n / 2 ^ 8 % 256]
  else if n < 2 ^ 24 then
    [0xfd, n % 256, n / 2 ^ 8 % 256, n / 2 ^ 16 % 256]
  else
    [0xfe, n % 256, n / 2 ^ 8 % 256, n / 2 ^ 16 % 256, n / 2 ^ 24 % 256,
      n / 2 ^ 32 % 256, n / 2 ^ 40 % 256, n / 2 ^ 48 % 256, n / 2 ^ 56 % 256]

/-- Embedding of `conn.ReadLengthEncodedInt` (stream.go) as a pure stream
consumer: returns the decoded integer and the unread remainder of the
stream, or `none` on a short read or an unknown marker byte (`0xfb`,
`0xff`). -/
def readLengthEncodedInt : List Nat → Option (Nat × List Nat)
  | [] => none
  | b :: rest =>
    if b < 0xfb then some (b, rest) else
    if b = 0xfc then
      match rest with
      | b0 :: b1 :: r => some (b0 + b1 * 2 ^ 8, r)
      | _ => none
    else if b = 0xfd then
      match rest with
      | b0 :: b1 :: b2 :: r => some (b0 + b1 * 2 ^ 8 + b2 * 2 ^ 16, r)
      | _ => none
    else if b = 0xfe then
      match rest with
      | b0 :: b1 :: b2 :: b3 :: b4 :: b5 :: b6 :: b7 :: r =>
        some (b0 + b1 * 2 ^ 8 + b2 * 2 ^ 16 + b3 * 2 ^ 24 + b4 * 2 ^ 32 +
          b5 * 2 ^ 40 + b6 * 2 ^ 48 + b7 * 2 ^ 56, r)
      | _ => none
    else none

theorem writeLengthEncodedInt_small {n : Nat} (h : n < 251) :
    writeLengthEncodedInt n = [n] := by
  simp [writeLengthEncodedInt, h]

/-- C4 helper: the reader inverts the writer on any suffix stream. -/
theorem readLengthEncodedInt_append (n : Nat) (hn : n < 2 ^ 64) (rest : List Nat) :
    readLengthEncodedInt (writeLengthEncodedInt n ++ rest) = some (n, rest) := by
  unfold writeLengthEncodedInt
  by_cases h1 : n < 251
  · rw [if_pos h1]
    simp [readLengthEncodedInt, h1]
  · rw [if_neg h1]
    by_cases h2 : n < 2 ^ 16
    · rw [if_pos h2]
      have e : n % 256 + n / 256 % 256 * 256 = n := by omega
      simp [readLengthEncodedInt, e]
    · rw [if_neg h2]
      by_cases h3 : n < 2 ^ 24
      · rw [if_pos h3]
        have e : n % 256 + n / 256 % 256 * 256 + n / 65536 % 256 * 65536 = n := by
          omega
        simp [readLengthEncodedInt, e]
      · rw [if_neg h3]
        have e : n % 256 + n / 256 % 256 * 256 + n / 65536 % 256 * 65536 +
            n / 16777216 % 256 * 16777216 + n / 4294967296 % 256 * 4294967296 +
            n / 1099511627776 % 256 * 1099511627776 +
            n / 281474976710656 % 256 * 281474976710656 +
            n / 72057594037927936 % 256 * 72057594037927936 = n := by
          omega
        simp [readLengthEncodedInt, e]

/-- Byte-length of the encoding, matching the four branches of the writer. -/
theorem writeLengthEncodedInt_length (n : Nat) :
    (writeLengthEncodedInt n).length =
      if n < 251 then 1 else if n < 2 ^ 16 then 3 else if n < 2 ^ 24 then 4 else 9 := by
  unfold writeLengthEncodedInt
  split_ifs <;> simp

/-! ## Server error packets (conn.go: ErrorFromErrPacket, serverError.Error) -/

/-- ASCII bytes of a Lean string literal (used to spell out the Go format
strings as byte lists). -/
def strBytes (s : String) : List Nat :=
  s.toList.map Char.toNat

/-- Decimal ASCII digits of a natural number, as emitted by the `%d` verb
of `fmt.Sprintf`. -/
def decBytes (n : Nat) : List Nat :=
  (Nat.repr n).toList.map Char.toNat

/-- Lowercase hexadecimal digit, as used by Go's quoted-string escapes. -/
def hexDigit (n : Nat) : Nat :=
  if n < 10 then 48 + n else 87 + n

/-- How Go's `%q` verb renders one byte of an ASCII string: `"` and `\`
are backslash-escaped, printable ASCII is passed through, the seven
special control characters get their mnemonic escapes, anything else is a
`\xhh` escape. -/
def goQuoteByte (b : Nat) : List Nat :=
  if b = 34 then [92, 34]
  else if b = 92 then [92, 92]
  else if 32 ≤ b ∧ b ≤ 126 then [b]
  else if b = 7 then [92, 97]
  else if b = 8 then [92, 98]
  else if b = 12 then [92, 102]
  else if b = 10 then [92, 110]
  else if b = 13 then [92, 114]
  else if b = 9 then [92, 116]
  else if b = 11 then [92, 118]
  else [92, 120, hexDigit (b / 16), hexDigit (b % 16)]

/-- Go's `%q` verb on a byte string (faithful for ASCII input): a double
quote, the escaped body, a double quote. -/
def goQuote (s : List Nat) : List Nat :=
  34 :: (s.map goQuoteByte).flatten ++ [34]

/-- The decoded form of a server error packet (struct `serverError` in
conn.go). -/
structure ServerError where
  errorCode : Nat
  sqlState : List Nat
  errorMsg : List Nat
deriving DecidableEq

/-- Embedding of `conn.ErrorFromErrPacket` (conn.go): given the packet
payload after the leading `0xFF` byte has been consumed, read a 2-byte
little-endian error code, skip one byte (the `#`), read the 5-byte SQL
state, and take the remainder of the packet as the message. A packet too
short for these fixed fields is an unexpected-EOF error (`none`). -/
def errorFromErrPacket : List Nat → Option ServerError
  | b0 :: b1 :: _hash :: s0 :: s1 :: s2 :: s3 :: s4 :: msg =>
    some ⟨b0 + b1 * 2 ^ 8, [s0, s1, s2, s3, s4], msg⟩
  | _ => none

/-- Embedding of `serverError.Error` (conn.go): the exact byte string
produced by
`fmt.Sprintf("MySQL Server Error. Error Code = %d, Sql State = #%s, Message = %q", ...)`. -/
def serverErrorString (e : ServerError) : List Nat :=
  strBytes "MySQL Server Error. Error Code = " ++ decBytes e.errorCode ++
    strBytes ", Sql State = #" ++ e.sqlState ++
    strBytes ", Message = " ++ goQuote e.errorMsg

/-- The format the claim asserts: `MySQL Server Error. Code=<n>,
SqlState=#<s>, Message=<q>` (modelled from the spec sentence, for
comparison with the source's format). -/
def claimedServerErrorString (e : ServerError) : List Nat :=
  strBytes "MySQL Server Error. Code=" ++ decBytes e.errorCode ++
    strBytes ", SqlState=#" ++ e.sqlState ++
    strBytes ", Message=" ++ e.errorMsg

/-! ## Connection read path (conn.go)

The read-relevant mutable fields of `conn` are `lr.N` (bytes left in the
current packet), `mergeNextPacket`, `seqId` and `maxRecvPacketSize`.  The
wire is a list of bytes; each embedded operation returns its outcome, the
connection state after the call (unchanged when the Go code returns an
error before mutating), and the unread remainder of the wire. -/

/-- Errors surfaced by the embedded read path. -/
inductive RErr
  | unexpectedEOF
  | zeroLengthPacket
  | seqMismatch (want got : Nat)
  | eofPacketMissing
  | unknownLenencMarker
deriving DecidableEq

/-- Read-side state of `conn`. -/
structure RConn where
  lrN : Nat
  mergeNextPacket : Bool
  seqId : Nat
  maxRecv : Nat
deriving DecidableEq

/-- Embedding of `conn.readPacketHeader` (conn.go): consume 4 header
bytes, reject a 0-length packet, reject a sequence id different from the
connection counter, otherwise increment the counter and arm the limited
reader (and the merge flag when the length reaches the receive ceiling). -/
def rdPacketHeader (c : RConn) (input : List Nat) :
    Option RErr × RConn × List Nat :=
  match input with
  | b0 :: b1 :: b2 :: b3 :: rest =>
    let packetLen := b0 + b1 * 2 ^ 8 + b2 * 2 ^ 16
    if packetLen = 0 then
      (some .zeroLengthPacket, c, rest)
    else if b3 ≠ c.seqId then
      (some (.seqMismatch c.seqId b3), c, rest)
    else
      (none,
        { c with
          seqId := (c.seqId + 1) % 256,
          lrN := packetLen,
          mergeNextPacket := decide (c.maxRecv ≤ packetLen) },
        rest)
  | _ => (some .unexpectedEOF, c, [])

/-- The outcome of one `conn.Read` call. -/
inductive ReadResult
  | bytes (bs : List Nat)
  | eof
  | fail (e : RErr)
deriving DecidableEq

/-- The data-copy part of `conn.Read`: move up to `bufLen` bytes out of
the current packet (a short wire is an unexpected end-of-file). -/
def connReadBody (c : RConn) (input : List Nat) (bufLen : Nat) :
    ReadResult × RConn × List Nat :=
  let k := min bufLen (min c.lrN input.length)
  if bufLen ≠ 0 ∧ k = 0 then
    (.fail .unexpectedEOF, c, input)
  else
    (.bytes (input.take k), { c with lrN := c.lrN - k }, input.drop k)

/-- Embedding of `conn.Read` (conn.go) with a destination buffer of
length `bufLen`: end-of-stream at a packet boundary without a merge
pending, otherwise merge the next packet header if one is pending, then
copy bytes out of the current packet. -/
def connRead (c : RConn) (input : List Nat) (bufLen : Nat) :
    ReadResult × RConn × List Nat :=
  if c.lrN = 0 ∧ c.mergeNextPacket = false then
    (.eof, c, input)
  else if c.lrN = 0 then
    match rdPacketHeader c input with
    | (some e, c1, rest) => (.fail e, c1, rest)
    | (none, c1, rest) => connReadBody c1 rest bufLen
  else
    connReadBody c input bufLen

theorem connReadBody_rest_le (c : RConn) (input : List Nat) (bufLen : Nat) :
    (connReadBody c input bufLen).2.2.length ≤ input.length := by
  unfold connReadBody
  dsimp only
  split
  · simp
  · simp

theorem rdPacketHeader_rest_le (c : RConn) (input : List Nat) :
    (rdPacketHeader c input).2.2.length ≤ input.length := by
  unfold rdPacketHeader
  match input with
  | [] => simp
  | [b0] => simp
  | [b0, b1] => simp
  | [b0, b1, b2] => simp
  | b0 :: b1 :: b2 :: b3 :: rest =>
    dsimp only
    split
    · simp; omega
    · split <;> simp <;> omega

theorem connRead_rest_le (c : RConn) (input : List Nat) (bufLen : Nat) :
    (connRead c input bufLen).2.2.length ≤ input.length := by
  unfold connRead
  split
  · simp
  · split
    · match h : rdPacketHeader c input with
      | (some e, c1, rest) =>
        have := rdPacketHeader_rest_le c input
        rw [h] at this
        simpa using this
      | (none, c1, rest) =>
        have h1 := rdPacketHeader_rest_le c input
        rw [h] at h1
        simp only at h1
        exact le_trans (connReadBody_rest_le c1 rest bufLen) h1
    · exact connReadBody_rest_le c input bufLen

/-- A successful byte-producing `conn.Read` with a nonempty buffer makes
strict progress on the wire. -/
theorem connRead_bytes_progress (c : RConn) (input : List Nat) (bufLen : Nat)
    (bs : List Nat) (c1 : RConn) (rest : List Nat)
    (h : connRead c input bufLen = (.bytes bs, c1, rest)) (hb : bufLen ≠ 0) :
    rest.length < input.length ∧ bs.length ≠ 0 := by
  unfold connRead at h
  split at h
  · simp at h
  · rename_i hnoteof
    have hbody : ∀ c2 (inp2 : List Nat), inp2.length ≤ input.length →
        connReadBody c2 inp2 bufLen = (.bytes bs, c1, rest) →
        rest.length < input.length ∧ bs.length ≠ 0 := by
      intro c2 inp2 hle hres
      unfold connReadBody at hres
      dsimp only at hres
      split at hres
      · simp at hres
      · rename_i hk
        push_neg at hk
        have hkpos : 0 < min bufLen (min c2.lrN inp2.length) :=
          Nat.pos_of_ne_zero (hk hb)
        injection hres with e1 e2
        injection e2 with e2 e3
        injection e1 with e1
        subst e1
        subst e3
        constructor
        · simp only [List.length_drop]
          omega
        · simp only [List.length_take]
          omega
    split at h
    · match hh : rdPacketHeader c input with
      | (some e, c2, rest2) =>
        rw [hh] at h
        simp at h
      | (none, c2, rest2) =>
        rw [hh] at h
        have hle := rdPacketHeader_rest_le c input
        rw [hh] at hle
        simp only at hle
        exact hbody c2 rest2 hle h
    · exact hbody c input (le_refl _) h

/-- Embedding of `conn.AdvanceToEOF` (conn.go): repeatedly `Read` into the
512-byte scratch buffer until a clean end-of-stream; any other error is
returned. -/
def advanceToEOF (c : RConn) (input : List Nat) : Option RErr × RConn × List Nat :=
  match h : connRead c input 512 with
  | (.eof, c1, rest) => (none, c1, rest)
  | (.fail e, c1, rest) => (some e, c1, rest)
  | (.bytes _, c1, rest) => advanceToEOF c1 rest
termination_by input.length
decreasing_by
  exact (connRead_bytes_progress c input 512 _ c1 rest h (by norm_num)).1

/-- Embedding of `conn.AdvancePacket` (conn.go): drain the current
logical message, then read the next packet header. -/
def advancePacket (c : RConn) (input : List Nat) : Option RErr × RConn × List Nat :=
  match advanceToEOF c input with
  | (some e, c1, rest) => (some e, c1, rest)
  | (none, c1, rest) => rdPacketHeader c1 rest

/-- At a packet boundary with no merge pending, `AdvanceToEOF` is a
no-op. -/
theorem advanceToEOF_boundary (c : RConn) (input : List Nat)
    (h0 : c.lrN = 0) (hm : c.mergeNextPacket = false) :
    advanceToEOF c input = (none, c, input) := by
  rw [advanceToEOF]
  have hcr : connRead c input 512 = (.eof, c, input) := by
    unfold connRead
    rw [if_pos ⟨h0, hm⟩]
  split <;> rename_i heq <;> rw [hcr] at heq <;> first
    | (injection heq with e1 e2; injection e2 with e2 e3; subst e2; subst e3; rfl)
    | (exact absurd heq (by simp))

/-- `conn.Read` with data left on the current packet goes straight to the
copying body. -/
theorem connRead_of_lrN_pos (c : RConn) (input : List Nat) (bufLen : Nat)
    (h : c.lrN ≠ 0) :
    connRead c input bufLen = connReadBody c input bufLen := by
  unfold connRead
  rw [if_neg (by intro hh; exact h hh.1), if_neg h]

/-- Draining a packet with `AdvanceToEOF` consumes exactly the announced
`lr.N` bytes of the wire. -/
theorem advanceToEOF_drain (n : Nat) : ∀ (c : RConn) (input : List Nat),
    c.lrN = n → n ≤ input.length →
    advanceToEOF c input = advanceToEOF { c with lrN := 0 } (input.drop n) := by
  induction n using Nat.strong_induction_on with
  | _ n ih =>
    intro c input hn hle
    match n, hn with
    | 0, hn =>
      have : { c with lrN := 0 } = c := by
        cases c
        simp_all
      rw [this]
      simp
    | m + 1, hn =>
      have hpos : c.lrN ≠ 0 := by omega
      have hcr : connRead c input 512 =
          (.bytes (input.take (min 512 (min c.lrN input.length))),
            { c with lrN := c.lrN - min 512 (min c.lrN input.length) },
            input.drop (min 512 (min c.lrN input.length))) := by
        rw [connRead_of_lrN_pos c input 512 hpos]
        unfold connReadBody
        dsimp only
        rw [if_neg]
        push_neg
        intro
        omega
      set k := min 512 (min c.lrN input.length) with hk
      have hk1 : 1 ≤ k := by omega
      have hkn : k ≤ m + 1 := by omega
      rw [advanceToEOF]
      split <;> rename_i heq <;> rw [hcr] at heq
      · exact absurd heq (by simp)
      · exact absurd heq (by simp)
      · injection heq with e1 e2
        injection e2 with e2 e3
        subst e2
        subst e3
        rw [ih (m + 1 - k) (by omega) _ _ (by simp [hn]) (by simp; omega)]
        have hdd : (input.drop k).drop (m + 1 - k) = input.drop (m + 1) := by
          rw [List.drop_drop]
          congr 1
          omega
        rw [hdd]


/-- C7 counterexample: for the error packet carrying code 1146, SQL state
42S02 and message "m", the error string the code produces is not the
claimed `MySQL Server Error. Code=<n>, SqlState=#<s>, Message=<q>` form
(the code writes `Error Code = `, `Sql State = ` and a `%q`-quoted
message). -/
theorem C7_counterexample :
    Gms.errorFromErrPacket
        ([122, 4, 35] ++ Gms.strBytes "42S02" ++ Gms.strBytes "m") =
      some ⟨1146, Gms.strBytes "42S02", Gms.strBytes "m"⟩ ∧
    Gms.serverErrorString ⟨1146, Gms.strBytes "42S02", Gms.strBytes "m"⟩ ≠
      Gms.claimedServerErrorString ⟨1146, Gms.strBytes "42S02", Gms.strBytes "m"⟩ := by
  constructor
  · decide
  · decide

/-- C7 amended: for every server error packet carrying code n < 2^16, SQL
state bytes s0..s4 and message q, the error value produced formats exactly
as `MySQL Server Error. Error Code = <n>, Sql State = #<s>, Message = <q>`
where `<q>` is the Go `%q` quotation of the message. -/
theorem C7_server_error_format (n hash s0 s1 s2 s3 s4 : Nat) (q : List Nat)
    (hn : n < 2 ^ 16) :
    Gms.errorFromErrPacket ([n % 256, n / 256 % 256, hash, s0, s1, s2, s3, s4] ++ q) =
      some ⟨n, [s0, s1, s2, s3, s4], q⟩ ∧
    Gms.serverErrorString ⟨n, [s0, s1, s2, s3, s4], q⟩ =
      Gms.strBytes "MySQL Server Error. Error Code = " ++ Gms.decBytes n ++
        Gms.strBytes ", Sql State = #" ++ [s0, s1, s2, s3, s4] ++
        Gms.strBytes ", Message = " ++ Gms.goQuote q := by
  constructor
  · have e : n % 256 + n / 256 % 256 * 256 = n := by omega
    simp [Gms.errorFromErrPacket, e]
  · rfl

/-- Witness for C7 amended at the concrete packet of the counterexample. -/
theorem C7_server_error_format_witness :
    Gms.errorFromErrPacket ([1146 % 256, 1146 / 256 % 256, 35, 52, 50, 83, 48, 50] ++
        Gms.strBytes "m") = some ⟨1146, [52, 50, 83, 48, 50], Gms.strBytes "m"⟩ ∧
    Gms.serverErrorString ⟨1146, [52, 50, 83, 48, 50], Gms.strBytes "m"⟩ =
      Gms.strBytes "MySQL Server Error. Error Code = " ++ Gms.decBytes 1146 ++
        Gms.strBytes ", Sql State = #" ++ [52, 50, 83, 48, 50] ++
        Gms.strBytes ", Message = " ++ Gms.goQuote (Gms.strBytes "m") :=
  C7_server_error_format 1146 35 52 50 83 48 50 (Gms.strBytes "m") (by norm_num)

/-- C4: for every integer n in [0, 2^64), writing n with the
length-encoded integer writer and then reading the produced bytes with the
length-encoded integer reader returns n, the writer emitting 1 byte for
n < 251, 0xFC plus 2 bytes for n < 2^16, 0xFD plus 3 bytes for n < 2^24,
and 0xFE plus 8 bytes otherwise. -/
theorem C4_lenenc_roundtrip (n : Nat) (hn : n < 2 ^ 64) :
    Gms.readLengthEncodedInt (Gms.writeLengthEncodedInt n) = some (n, []) ∧
    (Gms.writeLengthEncodedInt n).length =
      (if n < 251 then 1 else if n < 2 ^ 16 then 1 + 2 else
        if n < 2 ^ 24 then 1 + 3 else 1 + 8) := by
  constructor
  · have := Gms.readLengthEncodedInt_append n hn []
    simpa using this
  · rw [Gms.writeLengthEncodedInt_length]

/-- Witness for C4 at n = 300. -/
theorem C4_lenenc_roundtrip_witness :
    Gms.readLengthEncodedInt (Gms.writeLengthEncodedInt 300) = some (300, []) ∧
    (Gms.writeLengthEncodedInt 300).length = 1 + 2 :=
  ⟨(C4_lenenc_roundtrip 300 (by norm_num)).1, by
    have := (C4_lenenc_roundtrip 300 (by norm_num)).2
    simpa using this⟩

/-- Why a read-accumulation loop stopped early. -/
inductive Stop
  | atEOF
  | failed (e : RErr)
deriving DecidableEq

/-- The accumulation loop of `io.ReadAtLeast` over `conn.Read`
(stream.go: `readExactly` calls `io.ReadAtLeast(r, buf, len(buf))`):
keep reading until `want` bytes have been gathered or the reader stops. -/
def connReadLoop (c : RConn) (input : List Nat) (want : Nat) :
    (List Nat × Option Stop) × RConn × List Nat :=
  if hw : want = 0 then (([], none), c, input)
  else
    match h : connRead c input want with
    | (.bytes bs, c1, rest) =>
      let r := connReadLoop c1 rest (want - bs.length)
      ((bs ++ r.1.1, r.1.2), r.2.1, r.2.2)
    | (.eof, c1, rest) => (([], some .atEOF), c1, rest)
    | (.fail e, c1, rest) => (([], some (.failed e)), c1, rest)
termination_by want
decreasing_by
  have := (connRead_bytes_progress c input want bs c1 rest h hw).2
  omega

/-- Embedding of `readExactly` (stream.go): a short read, whatever its
cause, is reported as an unexpected end-of-file. -/
def rdExactly (c : RConn) (input : List Nat) (want : Nat) :
    Except RErr (List Nat) × RConn × List Nat :=
  match connReadLoop c input want with
  | ((bs, none), c1, rest) => (.ok bs, c1, rest)
  | ((_, some _), c1, rest) => (.error .unexpectedEOF, c1, rest)

theorem connReadLoop_rest_le (want : Nat) : ∀ (c : RConn) (input : List Nat),
    (connReadLoop c input want).2.2.length ≤ input.length := by
  induction want using Nat.strong_induction_on with
  | _ w ih =>
    intro c input
    rw [connReadLoop]
    split
    · simp
    · rename_i hw
      split
      · rename_i bs c1 rest heq
        dsimp only
        have hpr := connRead_bytes_progress c input w bs c1 rest heq hw
        have hih := ih (w - bs.length) (by omega) c1 rest
        omega
      · rename_i c1 rest heq
        have := connRead_rest_le c input w
        rw [heq] at this
        simpa using this
      · rename_i e c1 rest heq
        have := connRead_rest_le c input w
        rw [heq] at this
        simpa using this



theorem advanceToEOF_rest_le (N : Nat) : ∀ (c : RConn) (input : List Nat),
    input.length ≤ N → (advanceToEOF c input).2.2.length ≤ input.length := by
  induction N using Nat.strong_induction_on with
  | _ N ih =>
    intro c input hN
    rw [advanceToEOF]
    split
    · rename_i c1 rest heq
      have := connRead_rest_le c input 512
      rw [heq] at this
      simpa using this
    · rename_i e c1 rest heq
      have := connRead_rest_le c input 512
      rw [heq] at this
      simpa using this
    · rename_i bs c1 rest heq
      have hpr := (connRead_bytes_progress c input 512 bs c1 rest heq (by norm_num)).1
      have hih := ih rest.length (by omega) c1 rest (le_refl _)
      omega

/-- A successful `AdvancePacket` strictly shrinks the wire (it consumes
at least the 4 header bytes). -/
theorem advancePacket_none_progress (c : RConn) (input : List Nat)
    (c1 : RConn) (rest : List Nat)
    (h : advancePacket c input = (none, c1, rest)) :
    rest.length + 4 ≤ input.length := by
  unfold advancePacket at h
  match heof : advanceToEOF c input with
  | (some e, c2, rest2) =>
    rw [heof] at h
    simp at h
  | (none, c2, rest2) =>
    rw [heof] at h
    simp only at h
    have hle : rest2.length ≤ input.length := by
      have := advanceToEOF_rest_le input.length c input (le_refl _)
      rw [heof] at this
      simpa using this
    unfold rdPacketHeader at h
    match rest2, h with
    | b0 :: b1 :: b2 :: b3 :: rest3, h =>
      dsimp only at h
      split at h
      · simp at h
      · split at h
        · simp at h
        · injection h with h1 h2
          injection h2 with h2 h3
          subst h3
          simp at hle
          omega

/-- A successful exact read of at least one byte strictly shrinks the
wire. -/
theorem rdExactly_ok_progress (c : RConn) (input : List Nat) (want : Nat)
    (bs : List Nat) (c2 : RConn) (rest2 : List Nat)
    (h : rdExactly c input want = (.ok bs, c2, rest2)) (hw : want ≠ 0) :
    rest2.length < input.length := by
  unfold rdExactly at h
  match hL : connReadLoop c input want with
  | ((bs2, none), c3, rest3) =>
    rw [hL] at h
    injection h with h1 h2
    injection h2 with h2 h3
    subst h3
    rw [connReadLoop] at hL
    rw [dif_neg hw] at hL
    match heq : connRead c input want with
    | (.bytes bs4, c4, rest4) =>
      rw [heq] at hL
      dsimp only at hL
      injection hL with hL1 hL2
      injection hL2 with hL2 hL3
      have hpr := (connRead_bytes_progress c input want bs4 c4 rest4 heq hw).1
      have hle := connReadLoop_rest_le (want - bs4.length) c4 rest4
      rw [hL3] at hle
      omega
    | (.eof, c4, rest4) =>
      rw [heq] at hL
      simp at hL
    | (.fail e, c4, rest4) =>
      rw [heq] at hL
      simp at hL
  | ((bs2, some s), c3, rest3) =>
    rw [hL] at h
    simp at h

/-- Embedding of `conn.SkipPacketsUntilEOFPacket` (conn.go): advance
packet by packet, reading the first payload byte of each, until a packet
whose first byte is `0xFE` and whose remaining length is at most 4; then
drain it. -/
def skipPacketsUntilEOFPacket (c : RConn) (input : List Nat) :
    Option RErr × RConn × List Nat :=
  match h1 : advancePacket c input with
  | (some e, c1, rest) => (some e, c1, rest)
  | (none, c1, rest) =>
    match h2 : rdExactly c1 rest 1 with
    | (.error e, c2, rest2) => (some e, c2, rest2)
    | (.ok bs, c2, rest2) =>
      if bs.headD 0 = 0xfe ∧ c2.lrN ≤ 4 then
        advanceToEOF c2 rest2
      else
        skipPacketsUntilEOFPacket c2 rest2
termination_by input.length
decreasing_by
  have ha := advancePacket_none_progress c input c1 rest h1
  have hb := rdExactly_ok_progress c1 rest 1 bs c2 rest2 h2 (by norm_num)
  omega

theorem connReadLoop_zero (c : RConn) (input : List Nat) :
    connReadLoop c input 0 = (([], none), c, input) := by
  rw [connReadLoop]
  simp

/-- An exact read that stays inside the current packet consumes exactly
`want` bytes of the wire and decrements `lr.N` by `want`. -/
theorem rdExactly_within_packet (c : RConn) (input : List Nat) (want : Nat)
    (hw : want ≠ 0) (h1 : want ≤ c.lrN) (h2 : c.lrN ≤ input.length) :
    rdExactly c input want =
      (.ok (input.take want), { c with lrN := c.lrN - want }, input.drop want) := by
  have hcr : connRead c input want =
      (.bytes (input.take want), { c with lrN := c.lrN - want }, input.drop want) := by
    rw [connRead_of_lrN_pos c input want (by omega)]
    unfold connReadBody
    dsimp only
    rw [if_neg (by push_neg; intro; omega)]
    have hk : min want (min c.lrN input.length) = want := by omega
    rw [hk]
  unfold rdExactly
  rw [connReadLoop]
  rw [dif_neg hw]
  rw [hcr]
  dsimp only
  have hlen : (input.take want).length = want := by
    simp
    omega
  rw [hlen, Nat.sub_self, connReadLoop_zero]
  simp

/-- One packet as `conn.Write` would lay it on the wire: 3-byte
little-endian length, sequence byte, payload. -/
def encPacket (seq : Nat) (payload : List Nat) : List Nat :=
  payload.length % 256 :: payload.length / 2 ^ 8 % 256 ::
    payload.length / 2 ^ 16 % 256 :: seq :: payload

/-- A run of packets with consecutive (mod 256) sequence ids. -/
def encPackets (seq : Nat) : List (List Nat) → List Nat
  | [] => []
  | p :: ps => encPacket seq p ++ encPackets ((seq + 1) % 256) ps

/-- Advancing onto a well-formed, correctly sequenced, non-maximal packet
succeeds and arms the limited reader with its length. -/
theorem advancePacket_encPacket (c : RConn) (p R : List Nat)
    (h0 : c.lrN = 0) (hm : c.mergeNextPacket = false)
    (hp1 : p.length ≠ 0) (hp2 : p.length < c.maxRecv) (hp3 : p.length < 2 ^ 24) :
    advancePacket c (encPacket c.seqId p ++ R) =
      (none,
        { c with
          lrN := p.length,
          seqId := (c.seqId + 1) % 256,
          mergeNextPacket := false },
        p ++ R) := by
  unfold advancePacket
  rw [advanceToEOF_boundary c _ h0 hm]
  unfold encPacket rdPacketHeader
  dsimp only [List.cons_append]
  have e : p.length % 256 + p.length / 2 ^ 8 % 256 * 2 ^ 8 +
      p.length / 2 ^ 16 % 256 * 2 ^ 16 = p.length := by omega
  rw [e]
  rw [if_neg hp1, if_neg (by simp)]
  have hmg : decide (c.maxRecv ≤ p.length) = false := by
    simp
    omega
  rw [hmg]

/-- C5 counterexample: a header whose sequence id matches the counter but
whose length field is zero is rejected without incrementing the counter,
so the claim's "when they match, the counter is incremented by one" fails
as stated. -/
theorem C5_counterexample :
    (rdPacketHeader ⟨0, false, 5, 16777215⟩ [0, 0, 0, 5]).2.1.seqId = 5 ∧
    (rdPacketHeader ⟨0, false, 5, 16777215⟩ [0, 0, 0, 5]).1 =
      some RErr.zeroLengthPacket := by
  constructor
  · decide
  · decide

/-- C5 amended: whenever a packet header is read whose sequence id differs
from the connection's current sequence counter, a protocol error is
returned (the zero-length error if the length field is also zero), the
counter is not incremented, and no bytes beyond the 4-byte header are
consumed; when they match and the length field is nonzero, the counter is
incremented by one (a matching header with a zero length field is also a
protocol error that leaves the counter unchanged). -/
theorem C5_sequence_discipline (c : RConn) (b0 b1 b2 b3 : Nat) (rest : List Nat) :
    (b3 ≠ c.seqId →
      rdPacketHeader c (b0 :: b1 :: b2 :: b3 :: rest) =
        ((if b0 + b1 * 2 ^ 8 + b2 * 2 ^ 16 = 0 then some RErr.zeroLengthPacket
          else some (RErr.seqMismatch c.seqId b3)), c, rest)) ∧
    (b3 = c.seqId → b0 + b1 * 2 ^ 8 + b2 * 2 ^ 16 ≠ 0 →
      rdPacketHeader c (b0 :: b1 :: b2 :: b3 :: rest) =
        (none,
          { c with
            lrN := b0 + b1 * 2 ^ 8 + b2 * 2 ^ 16,
            seqId := (c.seqId + 1) % 256,
            mergeNextPacket := decide (c.maxRecv ≤ b0 + b1 * 2 ^ 8 + b2 * 2 ^ 16) },
          rest)) := by
  constructor
  · intro hne
    unfold rdPacketHeader
    dsimp only
    by_cases hz : b0 + b1 * 2 ^ 8 + b2 * 2 ^ 16 = 0
    · rw [if_pos hz, if_pos hz]
    · rw [if_neg hz, if_neg hz, if_pos hne]
  · intro heq hz
    unfold rdPacketHeader
    dsimp only
    rw [if_neg hz, if_neg (by simp [heq])]

/-- Witness for C5 amended: a mismatched header is rejected in place, a
matching nonzero header advances the counter. -/
theorem C5_sequence_discipline_witness :
    rdPacketHeader ⟨0, false, 0, 16777215⟩ [1, 0, 0, 7] =
      (some (RErr.seqMismatch 0 7), ⟨0, false, 0, 16777215⟩, []) ∧
    rdPacketHeader ⟨0, false, 0, 16777215⟩ [2, 0, 0, 0] =
      (none, ⟨2, false, 1, 16777215⟩, []) := by
  constructor
  · have h := (C5_sequence_discipline ⟨0, false, 0, 16777215⟩ 1 0 0 7 []).1 (by decide)
    simpa using h
  · have h := (C5_sequence_discipline ⟨0, false, 0, 16777215⟩ 2 0 0 0 []).2 rfl (by decide)
    simpa using h

/-- C3: the code rejects a zero-length continuation packet.  A logical
message of length exactly `maxRecv`, chunked by the peer as one
maximum-size packet followed by the natural zero-length terminator, is
read as: header accepted (merge flag armed), the `maxRecv` payload bytes
drained, and then `readPacketHeader` returns the "unexpected 0-length
packet" protocol error instead of a clean end-of-stream — the
`BUG(sanjay)` comment in conn.go acknowledges that this case should have
been accepted when merging. -/
theorem C3_zero_continuation_rejected (c : RConn) (p R : List Nat)
    (h0 : c.lrN = 0) (hm : c.mergeNextPacket = false)
    (hlen : p.length = c.maxRecv) (hpos : c.maxRecv ≠ 0) (hmax : c.maxRecv < 2 ^ 24) :
    ∃ c1,
      advancePacket c (encPacket c.seqId p ++ encPacket ((c.seqId + 1) % 256) [] ++ R) =
        (none, c1, p ++ encPacket ((c.seqId + 1) % 256) [] ++ R) ∧
      c1.mergeNextPacket = true ∧
      advanceToEOF c1 (p ++ encPacket ((c.seqId + 1) % 256) [] ++ R) =
        (some RErr.zeroLengthPacket, { c1 with lrN := 0 }, R) := by
  refine ⟨{ c with
    lrN := p.length,
    seqId := (c.seqId + 1) % 256,
    mergeNextPacket := true }, ?_, rfl, ?_⟩
  · unfold advancePacket
    rw [advanceToEOF_boundary c _ h0 hm]
    unfold encPacket rdPacketHeader
    dsimp only [List.cons_append]
    have e : p.length % 256 + p.length / 2 ^ 8 % 256 * 2 ^ 8 +
        p.length / 2 ^ 16 % 256 * 2 ^ 16 = p.length := by omega
    rw [e]
    rw [if_neg (by omega), if_neg (by simp)]
    have hmg : decide (c.maxRecv ≤ p.length) = true := by
      simp
      omega
    rw [hmg]
  · rw [advanceToEOF_drain p.length _ _ rfl (by simp)]
    dsimp only
    rw [List.append_assoc, List.drop_left]
    rw [advanceToEOF]
    have hcr : connRead
        { c with lrN := 0, seqId := (c.seqId + 1) % 256, mergeNextPacket := true }
          (encPacket ((c.seqId + 1) % 256) [] ++ R) 512 =
        (.fail RErr.zeroLengthPacket,
          { c with lrN := 0, seqId := (c.seqId + 1) % 256, mergeNextPacket := true },
          R) := by
      unfold connRead
      rw [if_neg (by simp), if_pos rfl]
      unfold encPacket rdPacketHeader
      dsimp only [List.length_nil, List.cons_append, List.nil_append]
      rw [if_pos (by norm_num)]
    split <;> rename_i heq <;> rw [hcr] at heq
    · exact absurd heq (by simp)
    · injection heq with e1 e2
      injection e2 with e2 e3
      injection e1 with e1
      subst e2
      subst e3
      subst e1
      rfl
    · exact absurd heq (by simp)

/-- Witness for C3 at `maxRecv = 3`, payload `[9, 9, 9]`. -/
theorem C3_zero_continuation_rejected_witness :
    ∃ c1,
      advancePacket ⟨0, false, 0, 3⟩
          (encPacket 0 [9, 9, 9] ++ encPacket ((0 + 1) % 256) [] ++ []) =
        (none, c1, [9, 9, 9] ++ encPacket ((0 + 1) % 256) [] ++ []) ∧
      c1.mergeNextPacket = true ∧
      advanceToEOF c1 ([9, 9, 9] ++ encPacket ((0 + 1) % 256) [] ++ []) =
        (some RErr.zeroLengthPacket, { c1 with lrN := 0 }, []) :=
  C3_zero_continuation_rejected ⟨0, false, 0, 3⟩ [9, 9, 9] []
    rfl rfl (by decide) (by decide) (by decide)

/-! ## Statement machine: Exec reply handling (unnamed/part_003, part_002) -/

/-- Little-endian assembly of a byte list, as the `ret |= b << (8*i)` loop
of `ReadLengthEncodedInt` (stream.go) produces. -/
def listLE (ds : List Nat) : Nat :=
  ds.foldr (fun b acc => b + acc * 256) 0

/-- The fixed-width tail of `ReadLengthEncodedInt` when reading from the
connection: read `size` bytes and assemble them little-endian. -/
def rdLenencBytes (c : RConn) (input : List Nat) (size : Nat) :
    Except RErr Nat × RConn × List Nat :=
  match rdExactly c input size with
  | (.error e, c1, rest) => (.error e, c1, rest)
  | (.ok ds, c1, rest) => (.ok (listLE ds), c1, rest)

/-- Embedding of `conn.ReadLengthEncodedInt` (stream.go) reading from the
connection itself (`r = c`), as `stmt.Exec` uses it. -/
def connReadLenencInt (c : RConn) (input : List Nat) :
    Except RErr Nat × RConn × List Nat :=
  match rdExactly c input 1 with
  | (.error e, c1, rest) => (.error e, c1, rest)
  | (.ok bs, c1, rest) =>
    if bs.headD 0 < 0xfb then (.ok (bs.headD 0), c1, rest)
    else if bs.headD 0 = 0xfc then rdLenencBytes c1 rest 2
    else if bs.headD 0 = 0xfd then rdLenencBytes c1 rest 3
    else if bs.headD 0 = 0xfe then rdLenencBytes c1 rest 8
    else (.error .unknownLenencMarker, c1, rest)

/-- The `io.Copy(c.reuseBuf, c)` of `ErrorFromErrPacket` (conn.go):
collect the rest of the current logical message. -/
def readAllMessage (c : RConn) (input : List Nat) :
    Except RErr (List Nat) × RConn × List Nat :=
  match h : connRead c input 32768 with
  | (.eof, c1, rest) => (.ok [], c1, rest)
  | (.fail e, c1, rest) => (.error e, c1, rest)
  | (.bytes bs, c1, rest) =>
    match readAllMessage c1 rest with
    | (.ok more, c2, rest2) => (.ok (bs ++ more), c2, rest2)
    | (.error e, c2, rest2) => (.error e, c2, rest2)
termination_by input.length
decreasing_by
  exact (connRead_bytes_progress c input 32768 _ c1 rest h (by norm_num)).1

/-- `conn.ErrorFromErrPacket` (conn.go) reading through the connection:
2-byte code, 1 skipped byte, 5-byte SQL state, message to packet end. -/
def connErrorFromErrPacket (c : RConn) (input : List Nat) :
    Except RErr ServerError × RConn × List Nat :=
  match rdExactly c input 2 with
  | (.error e, c1, rest) => (.error e, c1, rest)
  | (.ok cs, c1, rest) =>
    match rdExactly c1 rest 1 with
    | (.error e, c2, rest2) => (.error e, c2, rest2)
    | (.ok _, c2, rest2) =>
      match rdExactly c2 rest2 5 with
      | (.error e, c3, rest3) => (.error e, c3, rest3)
      | (.ok ss, c3, rest3) =>
        match readAllMessage c3 rest3 with
        | (.error e, c4, rest4) => (.error e, c4, rest4)
        | (.ok msg, c4, rest4) => (.ok ⟨listLE cs, ss, msg⟩, c4, rest4)

/-- Result values of `stmt.Exec`: the `results` struct or the
`unknownResults` sentinel (unnamed/part_002). -/
inductive DrvResult
  | results (affectedRows lastInsertId : Int)
  | unknownResults
deriving DecidableEq

/-- `results.RowsAffected` / `unknownResults.RowsAffected`
(unnamed/part_002): the latter fails with the
`errUnknownRowsAffected` sentinel. -/
def rowsAffectedOf : DrvResult → Except String Int
  | .results a _ => .ok a
  | .unknownResults => .error "Server did not send number of rows affected"

/-- `results.LastInsertId` / `unknownResults.LastInsertId`
(unnamed/part_002): the latter fails with the
`errUnknownLastInsertId` sentinel. -/
def lastInsertIdOf : DrvResult → Except String Int
  | .results _ l => .ok l
  | .unknownResults => .error "Server did not send last-insert-id"

/-- The Go conversion `int64(x)` applied to the `uint64` produced by the
lenenc reader. -/
def int64OfUint64 (n : Nat) : Int :=
  if n < 2 ^ 63 then (n : Int) else (n : Int) - 2 ^ 64

/-- Errors surfaced by `stmt.Exec`. -/
inductive ExecErr
  | io (e : RErr)
  | server (e : ServerError)
deriving DecidableEq

/-- Embedding of the reply-handling half of `stmt.Exec`
(unnamed/part_003, after `sendQuery` has flushed the command packet):
advance to the reply packet, read its first byte, then dispatch on
`0xFF` (server error), nonzero (result set: drain two EOF-terminated
packet streams, return `unknownResults`), or `0x00` (OK packet: two
lenenc integers narrowed to `int64`). -/
def stmtExec (c : RConn) (input : List Nat) :
    Except ExecErr DrvResult × RConn × List Nat :=
  match advancePacket c input with
  | (some e, c1, rest) => (.error (.io e), c1, rest)
  | (none, c1, rest) =>
    match rdExactly c1 rest 1 with
    | (.error e, c2, rest2) => (.error (.io e), c2, rest2)
    | (.ok bs, c2, rest2) =>
      if bs.headD 0 = 0xff then
        match connErrorFromErrPacket c2 rest2 with
        | (.error e, c3, rest3) => (.error (.io e), c3, rest3)
        | (.ok se, c3, rest3) => (.error (.server se), c3, rest3)
      else if bs.headD 0 ≠ 0x00 then
        match skipPacketsUntilEOFPacket c2 rest2 with
        | (some e, c3, rest3) => (.error (.io e), c3, rest3)
        | (none, c3, rest3) =>
          match skipPacketsUntilEOFPacket c3 rest3 with
          | (some e, c4, rest4) => (.error (.io e), c4, rest4)
          | (none, c4, rest4) => (.ok .unknownResults, c4, rest4)
      else
        match connReadLenencInt c2 rest2 with
        | (.error e, c3, rest3) => (.error (.io e), c3, rest3)
        | (.ok aff, c3, rest3) =>
          match connReadLenencInt c3 rest3 with
          | (.error e, c4, rest4) => (.error (.io e), c4, rest4)
          | (.ok lii, c4, rest4) =>
            (.ok (.results (int64OfUint64 aff) (int64OfUint64 lii)), c4, rest4)

theorem encPackets_append (A : List (List Nat)) :
    ∀ (s : Nat), s < 256 → ∀ (B : List (List Nat)),
    encPackets s (A ++ B) = encPackets s A ++ encPackets ((s + A.length) % 256) B := by
  induction A with
  | nil =>
    intro s hs B
    simp [encPackets, Nat.mod_eq_of_lt hs]
  | cons a A ihA =>
    intro s hs B
    simp only [List.cons_append, encPackets, List.append_eq]
    rw [ihA ((s + 1) % 256) (Nat.mod_lt _ (by norm_num)) B]
    have e : ((s + 1) % 256 + A.length) % 256 = (s + (A.length + 1)) % 256 := by omega
    rw [e]
    simp [List.append_assoc]

/-- Draining the tail of the current packet commutes with
`AdvancePacket`. -/
theorem advancePacket_drain (c : RConn) (input : List Nat)
    (h : c.lrN ≤ input.length) :
    advancePacket c input = advancePacket { c with lrN := 0 } (input.drop c.lrN) := by
  unfold advancePacket
  rw [advanceToEOF_drain c.lrN c input rfl h]

/-- Processing one well-formed packet inside
`SkipPacketsUntilEOFPacket`. -/
theorem skipUntilEOF_step (c : RConn) (pre : List Nat) (p0 : Nat) (ptail R : List Nat)
    (h0 : c.lrN = pre.length) (hm : c.mergeNextPacket = false)
    (hp2 : ptail.length + 1 < c.maxRecv) (hp3 : ptail.length + 1 < 2 ^ 24) :
    skipPacketsUntilEOFPacket c (pre ++ (encPacket c.seqId (p0 :: ptail) ++ R)) =
      (if p0 = 0xfe ∧ ptail.length ≤ 4 then
        advanceToEOF
          { c with
            lrN := ptail.length,
            seqId := (c.seqId + 1) % 256,
            mergeNextPacket := false }
          (ptail ++ R)
      else
        skipPacketsUntilEOFPacket
          { c with
            lrN := ptail.length,
            seqId := (c.seqId + 1) % 256,
            mergeNextPacket := false }
          (ptail ++ R)) := by
  have hAdv : advancePacket c (pre ++ (encPacket c.seqId (p0 :: ptail) ++ R)) =
      (none,
        { c with
          lrN := (p0 :: ptail).length,
          seqId := (c.seqId + 1) % 256,
          mergeNextPacket := false },
        (p0 :: ptail) ++ R) := by
    rw [advancePacket_drain c _ (by simp [h0])]
    rw [h0, List.drop_left]
    have hb : ({ c with lrN := 0 } : RConn).seqId = c.seqId := rfl
    rw [← hb]
    rw [advancePacket_encPacket { c with lrN := 0 } (p0 :: ptail) R rfl hm
      (by simp) (by simp; omega) (by simp; omega)]
  rw [skipPacketsUntilEOFPacket]
  rw [hAdv]
  dsimp only
  have hrd : rdExactly
      { c with
        lrN := (p0 :: ptail).length,
        seqId := (c.seqId + 1) % 256,
        mergeNextPacket := false }
      ((p0 :: ptail) ++ R) 1 =
      (.ok [p0],
        { c with
          lrN := ptail.length,
          seqId := (c.seqId + 1) % 256,
          mergeNextPacket := false },
        ptail ++ R) := by
    rw [rdExactly_within_packet _ _ 1 (by norm_num) (by simp) (by simp)]
    simp
  rw [hrd]
  dsimp only
  by_cases hc : p0 = 0xfe ∧ ptail.length ≤ 4
  · rw [if_pos (by simpa using hc), if_pos hc]
  · rw [if_neg (by simpa using hc), if_neg hc]

/-- `SkipPacketsUntilEOFPacket` consumes exactly one EOF-terminated
packet stream: the remaining tail of the current message, then any number
of well-formed non-EOF packets, then one EOF packet (first byte `0xFE`,
payload at most 5 bytes), leaving the connection at a packet boundary
with the sequence counter advanced once per packet. -/
theorem skipUntilEOF_run (ps : List (List Nat)) :
    ∀ (c : RConn) (pre R : List Nat) (e0 : Nat) (etail : List Nat),
    c.lrN = pre.length → c.mergeNextPacket = false → c.seqId < 256 →
    (∀ q ∈ ps, q ≠ [] ∧ q.length < c.maxRecv ∧
      ¬(q.headD 0 = 0xfe ∧ q.length ≤ 5)) →
    c.maxRecv ≤ 2 ^ 24 →
    etail.length + 1 < c.maxRecv → e0 = 0xfe → etail.length ≤ 4 →
    skipPacketsUntilEOFPacket c
        (pre ++ (encPackets c.seqId (ps ++ [e0 :: etail]) ++ R)) =
      (none,
        { c with
          lrN := 0,
          seqId := (c.seqId + ps.length + 1) % 256,
          mergeNextPacket := false },
        R) := by
  induction ps with
  | nil =>
    intro c pre R e0 etail h0 hm hs hq hmx he1 he2 he3
    have henc : encPackets c.seqId ([] ++ [e0 :: etail]) =
        encPacket c.seqId (e0 :: etail) := by
      simp [encPackets]
    rw [henc]
    have hstep := skipUntilEOF_step c pre e0 etail R h0 hm
      (by simpa using he1) (by omega)
    rw [hstep, if_pos ⟨he2, he3⟩]
    rw [advanceToEOF_drain etail.length _ _ rfl (by simp)]
    dsimp only
    rw [List.drop_left]
    rw [advanceToEOF_boundary _ _ rfl rfl]
    simp
  | cons p ps ih =>
    intro c pre R e0 etail h0 hm hs hq hmx he1 he2 he3
    obtain ⟨hp0, hplen, hpeof⟩ := hq p (by simp)
    match p, hp0 with
    | p0 :: ptail, _ =>
      have henc : encPackets c.seqId ((p0 :: ptail) :: ps ++ [e0 :: etail]) =
          encPacket c.seqId (p0 :: ptail) ++
            encPackets ((c.seqId + 1) % 256) (ps ++ [e0 :: etail]) := by
        simp [encPackets]
      rw [henc, List.append_assoc]
      have hstep := skipUntilEOF_step c pre p0 ptail
        (encPackets ((c.seqId + 1) % 256) (ps ++ [e0 :: etail]) ++ R) h0 hm
        (by simpa using hplen) (by simp at hplen; omega)
      rw [hstep]
      have hcond : ¬(p0 = 0xfe ∧ ptail.length ≤ 4) := by
        simp at hpeof
        intro hcc
        rcases hcc with ⟨hcc1, hcc2⟩
        have := hpeof hcc1
        simp at this
        omega
      rw [if_neg hcond]
      have hih := ih
        { c with
          lrN := ptail.length,
          seqId := (c.seqId + 1) % 256,
          mergeNextPacket := false }
        ptail R e0 etail rfl rfl (Nat.mod_lt _ (by norm_num))
        (by
          intro q hqq
          exact hq q (by simp [hqq]))
        hmx (by simpa using he1) he2 he3
      rw [hih]
      have hseq : (((c.seqId + 1) % 256) + ps.length + 1) % 256 =
          (c.seqId + (ps.length + 1) + 1) % 256 := by omega
      simp only [hseq, List.length_cons]

/-- C6: when Exec's reply packet begins with a byte other than 0x00 and
other than 0xFF, the connection drains two EOF-terminated packet streams
(column definitions, then rows) and Exec returns `unknownResults`, whose
RowsAffected and LastInsertId accessors each fail with their own distinct
sentinel error. -/
theorem C6_exec_result_set (c : RConn) (b : Nat) (rtail : List Nat)
    (cols rows : List (List Nat)) (etail1 etail2 R : List Nat)
    (h0 : c.lrN = 0) (hm : c.mergeNextPacket = false) (hs : c.seqId < 256)
    (hb1 : b ≠ 0xff) (hb2 : b ≠ 0x00)
    (hr : rtail.length + 1 < c.maxRecv)
    (hcols : ∀ q ∈ cols, q ≠ [] ∧ q.length < c.maxRecv ∧
      ¬(q.headD 0 = 0xfe ∧ q.length ≤ 5))
    (hrows : ∀ q ∈ rows, q ≠ [] ∧ q.length < c.maxRecv ∧
      ¬(q.headD 0 = 0xfe ∧ q.length ≤ 5))
    (hmx : c.maxRecv ≤ 2 ^ 24)
    (he1 : etail1.length + 1 < c.maxRecv) (he1b : etail1.length ≤ 4)
    (he2 : etail2.length + 1 < c.maxRecv) (he2b : etail2.length ≤ 4) :
    stmtExec c (encPackets c.seqId
        ((b :: rtail) :: (cols ++ [0xfe :: etail1] ++ rows ++ [0xfe :: etail2])) ++ R) =
      (.ok .unknownResults,
        { c with
          lrN := 0,
          seqId := (c.seqId + cols.length + rows.length + 3) % 256,
          mergeNextPacket := false },
        R) ∧
    rowsAffectedOf DrvResult.unknownResults =
      .error "Server did not send number of rows affected" ∧
    lastInsertIdOf DrvResult.unknownResults =
      .error "Server did not send last-insert-id" ∧
    rowsAffectedOf DrvResult.unknownResults ≠ lastInsertIdOf DrvResult.unknownResults := by
  refine ⟨?_, rfl, rfl, by simp [rowsAffectedOf, lastInsertIdOf]⟩
  have hsplit : encPackets c.seqId
      ((b :: rtail) :: (cols ++ [0xfe :: etail1] ++ rows ++ [0xfe :: etail2])) =
      encPacket c.seqId (b :: rtail) ++
        (encPackets ((c.seqId + 1) % 256) (cols ++ [0xfe :: etail1]) ++
          encPackets (((c.seqId + 1) % 256 + (cols.length + 1)) % 256)
            (rows ++ [0xfe :: etail2])) := by
    have ha : cols ++ [0xfe :: etail1] ++ rows ++ [0xfe :: etail2] =
        (cols ++ [0xfe :: etail1]) ++ (rows ++ [0xfe :: etail2]) := by
      simp [List.append_assoc]
    rw [show encPackets c.seqId
        ((b :: rtail) :: (cols ++ [0xfe :: etail1] ++ rows ++ [0xfe :: etail2])) =
        encPacket c.seqId (b :: rtail) ++
          encPackets ((c.seqId + 1) % 256)
            (cols ++ [0xfe :: etail1] ++ rows ++ [0xfe :: etail2]) from by
      simp [encPackets]]
    rw [ha, encPackets_append (cols ++ [0xfe :: etail1]) ((c.seqId + 1) % 256)
      (Nat.mod_lt _ (by norm_num)) (rows ++ [0xfe :: etail2])]
    simp
  rw [hsplit, List.append_assoc]
  set X1 := encPackets ((c.seqId + 1) % 256) (cols ++ [0xfe :: etail1]) with hX1
  set X2 := encPackets (((c.seqId + 1) % 256 + (cols.length + 1)) % 256)
    (rows ++ [0xfe :: etail2]) with hX2
  have hAdv : advancePacket c
      (encPacket c.seqId (b :: rtail) ++ (X1 ++ X2 ++ R)) =
      (none,
        { c with
          lrN := (b :: rtail).length,
          seqId := (c.seqId + 1) % 256,
          mergeNextPacket := false },
        (b :: rtail) ++ (X1 ++ X2 ++ R)) := by
    exact advancePacket_encPacket c (b :: rtail) (X1 ++ X2 ++ R) h0 hm
      (by simp) (by simp; omega) (by simp; omega)
  have hrd : rdExactly
      { c with
        lrN := (b :: rtail).length,
        seqId := (c.seqId + 1) % 256,
        mergeNextPacket := false }
      ((b :: rtail) ++ (X1 ++ X2 ++ R)) 1 =
      (.ok [b],
        { c with
          lrN := rtail.length,
          seqId := (c.seqId + 1) % 256,
          mergeNextPacket := false },
        rtail ++ (X1 ++ X2 ++ R)) := by
    rw [rdExactly_within_packet _ _ 1 (by norm_num) (by simp) (by simp)]
    simp
  have hskip1 : skipPacketsUntilEOFPacket
      { c with
        lrN := rtail.length,
        seqId := (c.seqId + 1) % 256,
        mergeNextPacket := false }
      (rtail ++ (X1 ++ X2 ++ R)) =
      (none,
        { c with
          lrN := 0,
          seqId := ((c.seqId + 1) % 256 + cols.length + 1) % 256,
          mergeNextPacket := false },
        X2 ++ R) := by
    rw [show rtail ++ (X1 ++ X2 ++ R) = rtail ++ (X1 ++ (X2 ++ R)) from by
      simp [List.append_assoc]]
    exact skipUntilEOF_run cols
      { c with
        lrN := rtail.length,
        seqId := (c.seqId + 1) % 256,
        mergeNextPacket := false }
      rtail (X2 ++ R) 0xfe etail1 rfl rfl (Nat.mod_lt _ (by norm_num))
      (by intro q hqq; exact hcols q hqq) hmx (by simpa using he1) rfl he1b
  have hseq2 : (((c.seqId + 1) % 256 + (cols.length + 1)) % 256) =
      ((c.seqId + 1) % 256 + cols.length + 1) % 256 := by omega
  have hskip2 : skipPacketsUntilEOFPacket
      { c with
        lrN := 0,
        seqId := ((c.seqId + 1) % 256 + cols.length + 1) % 256,
        mergeNextPacket := false }
      (X2 ++ R) =
      (none,
        { c with
          lrN := 0,
          seqId := (((c.seqId + 1) % 256 + cols.length + 1) % 256 + rows.length + 1) % 256,
          mergeNextPacket := false },
        R) := by
    rw [show X2 ++ R = [] ++ (encPackets
        (((c.seqId + 1) % 256 + cols.length + 1) % 256)
        (rows ++ [0xfe :: etail2]) ++ R) from by rw [hX2, hseq2]; simp]
    exact skipUntilEOF_run rows
      { c with
        lrN := 0,
        seqId := ((c.seqId + 1) % 256 + cols.length + 1) % 256,
        mergeNextPacket := false }
      [] R 0xfe etail2 rfl rfl (Nat.mod_lt _ (by norm_num))
      (by intro q hqq; exact hrows q hqq) hmx (by simpa using he2) rfl he2b
  unfold stmtExec
  rw [hAdv]
  dsimp only
  rw [hrd]
  dsimp only
  rw [if_neg (by simpa using hb1)]
  rw [if_pos (by simpa using hb2)]
  rw [hskip1]
  dsimp only
  rw [hskip2]
  dsimp only
  have hfinal : (((c.seqId + 1) % 256 + cols.length + 1) % 256 + rows.length + 1) % 256 =
      (c.seqId + cols.length + rows.length + 3) % 256 := by omega
  rw [hfinal]

/-- Witness for C6: a one-byte reply packet `[1]` followed by two
immediate EOF packets. -/
theorem C6_exec_result_set_witness :
    stmtExec ⟨0, false, 0, 1000⟩
        (encPackets 0 ((1 :: ([] : List Nat)) ::
          (([] : List (List Nat)) ++ [0xfe :: ([] : List Nat)] ++ [] ++
            [0xfe :: ([] : List Nat)])) ++ []) =
      (.ok .unknownResults, ⟨0, false, (0 + 0 + 0 + 3) % 256, 1000⟩, []) ∧
    rowsAffectedOf DrvResult.unknownResults =
      .error "Server did not send number of rows affected" ∧
    lastInsertIdOf DrvResult.unknownResults =
      .error "Server did not send last-insert-id" ∧
    rowsAffectedOf DrvResult.unknownResults ≠ lastInsertIdOf DrvResult.unknownResults :=
  C6_exec_result_set ⟨0, false, 0, 1000⟩ 1 [] [] [] [] [] []
    rfl rfl (by decide) (by decide) (by decide) (by decide)
    (by intro q hq; simp at hq) (by intro q hq; simp at hq)
    (by decide) (by decide) (by decide) (by decide) (by decide)

/-- Reading back one lenenc integer through the connection, inside the
current packet, inverts the writer. -/
theorem connReadLenencInt_of_write (c : RConn) (a : Nat) (tail : List Nat)
    (ha : a < 2 ^ 64) (h1 : (writeLengthEncodedInt a).length ≤ c.lrN)
    (h2 : c.lrN ≤ (writeLengthEncodedInt a ++ tail).length) :
    connReadLenencInt c (writeLengthEncodedInt a ++ tail) =
      (.ok a, { c with lrN := c.lrN - (writeLengthEncodedInt a).length }, tail) := by
  unfold connReadLenencInt
  by_cases hr1 : a < 251
  · rw [writeLengthEncodedInt_small hr1] at h1 h2 ⊢
    simp only [List.length_append, List.length_cons, List.length_nil] at h1 h2
    rw [rdExactly_within_packet _ _ 1 (by norm_num) (by omega) (by simp; omega)]
    simp only [List.cons_append, List.nil_append, List.take_succ_cons, List.take_zero,
      List.drop_succ_cons, List.drop_zero, List.headD_cons]
    rw [if_pos (by omega)]
    simp [writeLengthEncodedInt_small hr1]
  · by_cases hr2 : a < 2 ^ 16
    · have henc : writeLengthEncodedInt a = [0xfc, a % 256, a / 2 ^ 8 % 256] := by
        unfold writeLengthEncodedInt
        rw [if_neg hr1, if_pos hr2]
      rw [henc] at h1 h2 ⊢
      simp only [List.length_append, List.length_cons, List.length_nil] at h1 h2
      rw [rdExactly_within_packet _ _ 1 (by norm_num) (by omega) (by simp; omega)]
      simp only [List.cons_append, List.take_succ_cons, List.take_zero,
        List.drop_succ_cons, List.drop_zero, List.headD_cons, List.nil_append]
      norm_num
      unfold rdLenencBytes
      rw [rdExactly_within_packet _ _ 2 (by norm_num) (by simp; omega)
        (by simp; omega)]
      simp only [List.take_succ_cons, List.take_zero, List.drop_succ_cons,
        List.drop_zero, List.length_cons, List.length_nil, Prod.mk.injEq,
        Except.ok.injEq]
      refine ⟨?_, ?_, by simp⟩
      · simp [listLE]
        omega
      · simp only [RConn.mk.injEq]
        refine ⟨by omega, by simp, by simp, by simp⟩
    · by_cases hr3 : a < 2 ^ 24
      · have henc : writeLengthEncodedInt a =
            [0xfd, a % 256, a / 2 ^ 8 % 256, a / 2 ^ 16 % 256] := by
          unfold writeLengthEncodedInt
          rw [if_neg hr1, if_neg hr2, if_pos hr3]
        rw [henc] at h1 h2 ⊢
        simp only [List.length_append, List.length_cons, List.length_nil] at h1 h2
        rw [rdExactly_within_packet _ _ 1 (by norm_num) (by omega) (by simp; omega)]
        simp only [List.cons_append, List.take_succ_cons, List.take_zero,
          List.drop_succ_cons, List.drop_zero, List.headD_cons, List.nil_append]
        norm_num
        unfold rdLenencBytes
        rw [rdExactly_within_packet _ _ 3 (by norm_num) (by simp; omega)
          (by simp; omega)]
        simp only [List.take_succ_cons, List.take_zero, List.drop_succ_cons,
          List.drop_zero, List.length_cons, List.length_nil, Prod.mk.injEq,
          Except.ok.injEq]
        refine ⟨?_, ?_, by simp⟩
        · simp [listLE]
          omega
        · simp only [RConn.mk.injEq]
          refine ⟨by omega, by simp, by simp, by simp⟩
      · have henc : writeLengthEncodedInt a =
            [0xfe, a % 256, a / 2 ^ 8 % 256, a / 2 ^ 16 % 256, a / 2 ^ 24 % 256,
              a / 2 ^ 32 % 256, a / 2 ^ 40 % 256, a / 2 ^ 48 % 256,
              a / 2 ^ 56 % 256] := by
          unfold writeLengthEncodedInt
          rw [if_neg hr1, if_neg hr2, if_neg hr3]
        rw [henc] at h1 h2 ⊢
        simp only [List.length_append, List.length_cons, List.length_nil] at h1 h2
        rw [rdExactly_within_packet _ _ 1 (by norm_num) (by omega) (by simp; omega)]
        simp only [List.cons_append, List.take_succ_cons, List.take_zero,
          List.drop_succ_cons, List.drop_zero, List.headD_cons, List.nil_append]
        norm_num
        unfold rdLenencBytes
        rw [rdExactly_within_packet _ _ 8 (by norm_num) (by simp; omega)
          (by simp; omega)]
        simp only [List.take_succ_cons, List.take_zero, List.drop_succ_cons,
          List.drop_zero, List.length_cons, List.length_nil, Prod.mk.injEq,
          Except.ok.injEq]
        refine ⟨?_, ?_, by simp⟩
        · simp [listLE]
          omega
        · simp only [RConn.mk.injEq]
          refine ⟨by omega, by simp, by simp, by simp⟩

/-- C10: Exec returns the OK packet's length-encoded affected-rows and
last-insert-id counts reinterpreted as signed 64-bit integers
(`int64(affRows)`, `int64(lastInsertId)`), so for every wire value at or
above 2^63 the returned count is negative rather than the transmitted
unsigned value. -/
theorem C10_exec_int64_reinterpretation (c : RConn) (a l : Nat)
    (extra R : List Nat)
    (h0 : c.lrN = 0) (hm : c.mergeNextPacket = false)
    (ha : a < 2 ^ 64) (hl : l < 2 ^ 64)
    (hsize : 1 + (writeLengthEncodedInt a).length + (writeLengthEncodedInt l).length +
      extra.length < c.maxRecv)
    (hmax : c.maxRecv ≤ 2 ^ 24) :
    stmtExec c (encPacket c.seqId
        (0x00 :: (writeLengthEncodedInt a ++ writeLengthEncodedInt l ++ extra)) ++ R) =
      (.ok (.results (int64OfUint64 a) (int64OfUint64 l)),
        { c with
          lrN := extra.length,
          seqId := (c.seqId + 1) % 256,
          mergeNextPacket := false },
        extra ++ R) ∧
    (2 ^ 63 ≤ a → int64OfUint64 a = (a : Int) - 2 ^ 64 ∧ int64OfUint64 a < 0 ∧
      int64OfUint64 a ≠ (a : Int)) := by
  constructor
  · set p := 0x00 :: (writeLengthEncodedInt a ++ writeLengthEncodedInt l ++ extra)
      with hp
    have hplen : p.length = 1 + (writeLengthEncodedInt a).length +
        (writeLengthEncodedInt l).length + extra.length := by
      simp [hp]
      omega
    have hAdv : advancePacket c (encPacket c.seqId p ++ R) =
        (none,
          { c with
            lrN := p.length,
            seqId := (c.seqId + 1) % 256,
            mergeNextPacket := false },
          p ++ R) :=
      advancePacket_encPacket c p R h0 hm (by simp [hp]) (by omega) (by omega)
    have hrd : rdExactly
        { c with
          lrN := p.length,
          seqId := (c.seqId + 1) % 256,
          mergeNextPacket := false }
        (p ++ R) 1 =
        (.ok [0x00],
          { c with
            lrN := (writeLengthEncodedInt a ++ writeLengthEncodedInt l ++ extra).length,
            seqId := (c.seqId + 1) % 256,
            mergeNextPacket := false },
          (writeLengthEncodedInt a ++ writeLengthEncodedInt l ++ extra) ++ R) := by
      rw [rdExactly_within_packet _ _ 1 (by norm_num) (by simp [hp]) (by simp [hp])]
      simp [hp]
    have hshape : (writeLengthEncodedInt a ++ writeLengthEncodedInt l ++ extra) ++ R =
        writeLengthEncodedInt a ++ (writeLengthEncodedInt l ++ (extra ++ R)) := by
      simp [List.append_assoc]
    have hrd1 : connReadLenencInt
        { c with
          lrN := (writeLengthEncodedInt a ++ writeLengthEncodedInt l ++ extra).length,
          seqId := (c.seqId + 1) % 256,
          mergeNextPacket := false }
        ((writeLengthEncodedInt a ++ writeLengthEncodedInt l ++ extra) ++ R) =
        (.ok a,
          { c with
            lrN := (writeLengthEncodedInt l ++ extra).length,
            seqId := (c.seqId + 1) % 256,
            mergeNextPacket := false },
          writeLengthEncodedInt l ++ (extra ++ R)) := by
      rw [hshape]
      rw [connReadLenencInt_of_write _ a (writeLengthEncodedInt l ++ (extra ++ R))
        ha (by simp) (by simp)]
      have e : (writeLengthEncodedInt a ++ writeLengthEncodedInt l ++ extra).length -
          (writeLengthEncodedInt a).length =
          (writeLengthEncodedInt l ++ extra).length := by
        simp
      rw [e]
    have hrd2 : connReadLenencInt
        { c with
          lrN := (writeLengthEncodedInt l ++ extra).length,
          seqId := (c.seqId + 1) % 256,
          mergeNextPacket := false }
        (writeLengthEncodedInt l ++ (extra ++ R)) =
        (.ok l,
          { c with
            lrN := extra.length,
            seqId := (c.seqId + 1) % 256,
            mergeNextPacket := false },
          extra ++ R) := by
      rw [connReadLenencInt_of_write _ l (extra ++ R) hl (by simp) (by simp)]
      have e : (writeLengthEncodedInt l ++ extra).length -
          (writeLengthEncodedInt l).length = extra.length := by
        simp
      rw [e]
    unfold stmtExec
    rw [hAdv]
    dsimp only
    rw [hrd]
    dsimp only
    rw [if_neg (by norm_num), if_neg (by norm_num)]
    rw [hrd1]
    dsimp only
    rw [hrd2]
  · intro hbig
    unfold int64OfUint64
    rw [if_neg (by omega)]
    refine ⟨rfl, by omega, by omega⟩

/-- Witness for C10: an OK packet carrying affected-rows 2^63 and
last-insert-id 1 is decoded to the negative count int64(2^63). -/
theorem C10_exec_int64_reinterpretation_witness :
    stmtExec ⟨0, false, 0, 16777215⟩
        (encPacket 0 (0x00 :: (writeLengthEncodedInt (2 ^ 63) ++
          writeLengthEncodedInt 1 ++ [])) ++ []) =
      (.ok (.results (int64OfUint64 (2 ^ 63)) (int64OfUint64 1)),
        ⟨([] : List Nat).length, false, (0 + 1) % 256, 16777215⟩,
        [] ++ []) ∧
    (2 ^ 63 ≤ 2 ^ 63 → int64OfUint64 (2 ^ 63) = ((2 ^ 63 : Nat) : Int) - 2 ^ 64 ∧
      int64OfUint64 (2 ^ 63) < 0 ∧ int64OfUint64 (2 ^ 63) ≠ ((2 ^ 63 : Nat) : Int)) :=
  C10_exec_int64_reinterpretation ⟨0, false, 0, 16777215⟩ (2 ^ 63) 1 [] [] rfl rfl
    (by norm_num) (by norm_num) (by decide) (by norm_num)

/-! ## Handshake scramble (conn.go, lines 367-398)

Go's `hash.Sum(b)` APPENDS the digest to `b` and returns the extended
slice; it does not overwrite `b`.  In `handshake`, `hash.Sum(c.scratch[:20])`
therefore writes SHA1(password) into `scratch[20:40]` (the append reuses
the array's spare capacity) and leaves `scratch[0:20]` untouched, while
the return value is discarded; the two later `hash.Sum(c.scratch[20:40])`
calls likewise write into `scratch[40:60]` and leave `scratch[20:40]`
holding SHA1(password).  The embedding below tracks exactly which 20-byte
windows each step reads and writes.  `sha1f` abstracts the SHA-1 function
(library code outside this repository); `scratch0` is the content of
`scratch[0:20]` on entry (all zeros on a fresh connection, since nothing
before this point writes to the scratch array). -/

/-- The scramble block `handshake` (conn.go) appends to the login packet:
a length byte then the XOR of `scratch[20:40]` (which holds
SHA1(password) after the three `Sum` calls) with `scratch[0:20]` (the
untouched prefix).  The challenge feeds only a digest whose output is
discarded. -/
def scrambleBlock (sha1f : List Nat → List Nat) (scratch0 : List Nat)
    (password challenge : List Nat) : List Nat :=
  if password.length = 0 then
    [0]
  else
    let s20to40 := sha1f password
    let _discarded1 := sha1f (scratch0.take 20)
    let _discarded2 := sha1f (challenge ++ s20to40)
    20 :: List.zipWith (fun x y => Nat.xor x y) s20to40 (scratch0.take 20)

/-- Modelled from the spec: the mysql_native_password scramble block,
`A = SHA1(password)`, `B = SHA1(A)`, `C = SHA1(challenge20 || B)`, length
byte 20 then `C XOR A`; a single byte 0 for an empty password. -/
def specScrambleBlock (sha1f : List Nat → List Nat)
    (password challenge : List Nat) : List Nat :=
  if password.length = 0 then
    [0]
  else
    20 :: List.zipWith (fun x y => Nat.xor x y)
      (sha1f (challenge ++ sha1f (sha1f password))) (sha1f password)

theorem zipWith_xor_zero (l : List Nat) : ∀ (n : Nat), l.length = n →
    List.zipWith (fun x y => Nat.xor x y) l (List.replicate n 0) = l := by
  induction l with
  | nil => intro n hn; simp
  | cons x xs ih =>
    intro n hn
    match n, hn with
    | m + 1, hn =>
      have hx : Nat.xor x 0 = x := Nat.xor_zero x
      simp only [List.replicate_succ, List.zipWith_cons_cons, hx]
      rw [ih m (by simpa using hn)]

/-- C1: on a fresh connection (scratch all zeros), the scramble block the
code transmits for a non-empty password is the length byte 20 followed by
SHA1(password) itself — not `C XOR A` — and it does not depend on the
server's challenge at all; only the empty-password branch matches the
claim.  The source's own comments (`c.scratch[0:20] == SHA1(password)`)
assert the intended dataflow that `hash.Sum`'s append semantics do not
deliver. -/
theorem C1_handshake_scramble (sha1f : List Nat → List Nat)
    (password challenge : List Nat)
    (hlen : (sha1f password).length = 20) :
    scrambleBlock sha1f (List.replicate 20 0) [] challenge = [0] ∧
    (password ≠ [] →
      scrambleBlock sha1f (List.replicate 20 0) password challenge =
        20 :: sha1f password) ∧
    (∀ challenge2,
      scrambleBlock sha1f (List.replicate 20 0) password challenge =
        scrambleBlock sha1f (List.replicate 20 0) password challenge2) := by
  refine ⟨by simp [scrambleBlock], ?_, ?_⟩
  · intro hp
    unfold scrambleBlock
    rw [if_neg (by simpa using hp)]
    dsimp only
    rw [List.take_of_length_le (by simp)]
    rw [zipWith_xor_zero (sha1f password) 20 hlen]
  · intro challenge2
    unfold scrambleBlock
    rfl

/-- A concrete stand-in hash (20-byte output), used only to exhibit the
divergence between the transmitted scramble and the spec's formula on an
explicit input. -/
def sha1Stub (xs : List Nat) : List Nat :=
  List.replicate 19 0 ++ [(xs.foldl (fun a b => a + b) 0 + xs.length) % 256]

/-- Witness for C1: with the stand-in hash, password `[1]` and a
challenge of twenty `1` bytes, the code's scramble block is
`20 :: sha1Stub [1]` and differs from the spec's
`C XOR A` formula on the same input. -/
theorem C1_handshake_scramble_witness :
    scrambleBlock sha1Stub (List.replicate 20 0) [1] (List.replicate 20 1) =
      20 :: sha1Stub [1] ∧
    scrambleBlock sha1Stub (List.replicate 20 0) [1] (List.replicate 20 1) ≠
      specScrambleBlock sha1Stub [1] (List.replicate 20 1) :=
  ⟨(C1_handshake_scramble sha1Stub [1] (List.replicate 20 1) (by decide)).2.1
      (by decide),
    by decide⟩

/-! ## Write path: the framer (unnamed/part_005) and the legacy conn
writer (conn.go)

The underlying `writer` is modelled as a byte list the framer appends to
(`wire`).  The write loops of the source can genuinely diverge on
unreachable states (a zero write capacity with bytes left), so they are
embedded with fuel; the theorems supply enough fuel. -/

/-- Write-side state of `framer` (unnamed/part_005) plus the bytes put on
the wire so far. -/
structure Framer where
  maxSend : Nat
  curWritePacketLen : Int
  availableWriteCap : Nat
  needsTrailer : Bool
  nextSeq : Nat
  wire : List Nat
deriving DecidableEq

/-- Embedding of `framer.BeginPacket`: the three panics become errors. -/
def framerBegin (f : Framer) (packetSize : Int) : Except String Framer :=
  if f.curWritePacketLen ≠ -1 then
    .error "currently writing a packet, perhaps EndPacket was not called?"
  else if f.availableWriteCap ≠ 0 then
    .error "availableWriteCap should be 0 before starting a new packet"
  else if packetSize ≤ 0 then
    .error "trying to BeginPacket with a non-positive size"
  else
    .ok { f with curWritePacketLen := packetSize }

/-- The loop body of `framer.Write`: emit a header when the current
packet capacity is exhausted (zero-length when a trailer is due, the
full ceiling when the remaining announced size reaches or exceeds it),
otherwise copy a chunk. -/
def framerWriteLoop (fuel : Nat) (f : Framer) (buf : List Nat) :
    Except String Framer :=
  match fuel with
  | 0 => .error "out of fuel"
  | fuel + 1 =>
    if buf.length = 0 ∧ f.needsTrailer = false then .ok f
    else if f.availableWriteCap = 0 then
      let capTrailer : Nat × Bool :=
        if f.needsTrailer then (0, false)
        else if f.curWritePacketLen = (f.maxSend : Int) then (f.maxSend, true)
        else if f.curWritePacketLen < (f.maxSend : Int) then
          (f.curWritePacketLen.toNat, false)
        else (f.maxSend, false)
      framerWriteLoop fuel
        { f with
          availableWriteCap := capTrailer.1,
          needsTrailer := capTrailer.2,
          nextSeq := (f.nextSeq + 1) % 256,
          wire := f.wire ++ [capTrailer.1 % 256, capTrailer.1 / 2 ^ 8 % 256,
            capTrailer.1 / 2 ^ 16 % 256, f.nextSeq] }
        buf
    else
      let k := min f.availableWriteCap buf.length
      framerWriteLoop fuel
        { f with
          curWritePacketLen := f.curWritePacketLen - (k : Int),
          availableWriteCap := f.availableWriteCap - k,
          wire := f.wire ++ buf.take k }
        (buf.drop k)

/-- Embedding of `framer.Write`: the two entry panics become errors, then
the loop runs. -/
def framerWrite (fuel : Nat) (f : Framer) (buf : List Nat) :
    Except String Framer :=
  if f.curWritePacketLen = -1 then
    .error "not writing a packet, perhaps BeginPacket was not called?"
  else if (buf.length : Int) > f.curWritePacketLen then
    .error "cannot write more than precalculated packet size."
  else
    framerWriteLoop fuel f buf

/-- Embedding of `framer.EndPacket`: panic unless the announced size was
written exactly; emit the pending trailer if one is due. -/
def framerEnd (fuel : Nat) (f : Framer) : Except String Framer :=
  if f.curWritePacketLen ≠ 0 then
    .error "internal error, miscalculated packet size"
  else if f.needsTrailer then
    framerWrite fuel f []
  else
    .ok f

/-- Write-side state of `conn` (conn.go) plus the bytes put on the wire
so far. -/
structure WConn where
  maxSend : Nat
  curPacketSizeRemaining : Nat
  writeCap : Nat
  seqId : Nat
  wire : List Nat
deriving DecidableEq

/-- Embedding of `conn.BeginPacket` (conn.go). -/
def connBeginPacket (w : WConn) (size : Nat) : Except String WConn :=
  if w.curPacketSizeRemaining ≠ 0 ∨ size = 0 ∨ w.writeCap ≠ 0 then
    .error "internal error, miscalculated packet size"
  else
    .ok { w with curPacketSizeRemaining := size }

/-- The loop body of `conn.Write` (conn.go): emit a header with capacity
`min maxSend remaining` when the write capacity is exhausted, otherwise
copy a chunk.  No trailer handling exists on this path. -/
def connWriteLoop (fuel : Nat) (w : WConn) (b : List Nat) :
    Except String WConn :=
  match fuel with
  | 0 => .error "out of fuel"
  | fuel + 1 =>
    if b.length = 0 then .ok w
    else if w.writeCap = 0 then
      let cap := min w.maxSend w.curPacketSizeRemaining
      connWriteLoop fuel
        { w with
          writeCap := cap,
          seqId := (w.seqId + 1) % 256,
          wire := w.wire ++ [cap % 256, cap / 2 ^ 8 % 256, cap / 2 ^ 16 % 256,
            w.seqId] }
        b
    else
      let k := min w.writeCap b.length
      connWriteLoop fuel
        { w with
          curPacketSizeRemaining := w.curPacketSizeRemaining - k,
          writeCap := w.writeCap - k,
          wire := w.wire ++ b.take k }
        (b.drop k)

/-- Embedding of `conn.Write` (conn.go): the entry panic becomes an
error, then the loop runs. -/
def connWrite (fuel : Nat) (w : WConn) (b : List Nat) : Except String WConn :=
  if b.length > w.curPacketSizeRemaining then
    .error "internal error, write larger than calculated packet size"
  else
    connWriteLoop fuel w b

/-- Embedding of `conn.EndPacket` (conn.go): panic unless the announced
size was written exactly (the flush itself is a no-op on the byte
level). -/
def connEndPacket (w : WConn) : Except String WConn :=
  if w.curPacketSizeRemaining ≠ 0 ∨ w.writeCap ≠ 0 then
    .error "internal error, miscalculated packet size"
  else
    .ok w

/-- The payload split into maximal chunks of `m` bytes. -/
def chunksOf (m : Nat) (p : List Nat) : List (List Nat) :=
  if _hp : p = [] then []
  else if _hm : m = 0 then [p]
  else p.take m :: chunksOf m (p.drop m)
termination_by p.length
decreasing_by
  have h1 : 1 ≤ p.length := by
    cases p
    · exact absurd rfl _hp
    · simp
  simp only [List.length_drop]
  omega

theorem framerWriteLoop_succ (fuel : Nat) (f : Framer) (buf : List Nat) :
    framerWriteLoop (fuel + 1) f buf =
      (if buf.length = 0 ∧ f.needsTrailer = false then .ok f
      else if f.availableWriteCap = 0 then
        let capTrailer : Nat × Bool :=
          if f.needsTrailer then (0, false)
          else if f.curWritePacketLen = (f.maxSend : Int) then (f.maxSend, true)
          else if f.curWritePacketLen < (f.maxSend : Int) then
            (f.curWritePacketLen.toNat, false)
          else (f.maxSend, false)
        framerWriteLoop fuel
          { f with
            availableWriteCap := capTrailer.1,
            needsTrailer := capTrailer.2,
            nextSeq := (f.nextSeq + 1) % 256,
            wire := f.wire ++ [capTrailer.1 % 256, capTrailer.1 / 2 ^ 8 % 256,
              capTrailer.1 / 2 ^ 16 % 256, f.nextSeq] }
          buf
      else
        let k := min f.availableWriteCap buf.length
        framerWriteLoop fuel
          { f with
            curWritePacketLen := f.curWritePacketLen - (k : Int),
            availableWriteCap := f.availableWriteCap - k,
            wire := f.wire ++ buf.take k }
          (buf.drop k)) := rfl

theorem chunksOf_nil (m : Nat) : chunksOf m [] = [] := by
  rw [chunksOf]
  simp

theorem chunksOf_cons (m : Nat) (p : List Nat) (hp : p ≠ []) (hm : m ≠ 0) :
    chunksOf m p = p.take m :: chunksOf m (p.drop m) := by
  rw [chunksOf]
  rw [dif_neg hp, dif_neg hm]

/-- Running `framer.Write` once over a payload of exactly `k` maximal
chunks: the wire receives `k` full packets followed by a zero-length
trailer packet, with consecutive sequence ids. -/
theorem framerWriteLoop_run (k : Nat) : ∀ (fuel : Nat) (f : Framer) (p : List Nat),
    1 ≤ k → 1 ≤ f.maxSend → 2 * k + 2 ≤ fuel →
    f.curWritePacketLen = ((k * f.maxSend : Nat) : Int) →
    f.availableWriteCap = 0 → f.needsTrailer = false →
    p.length = k * f.maxSend →
    framerWriteLoop fuel f p =
      .ok { f with
        curWritePacketLen := 0,
        availableWriteCap := 0,
        needsTrailer := false,
        nextSeq := (f.nextSeq + (k + 1)) % 256,
        wire := f.wire ++ encPackets f.nextSeq (chunksOf f.maxSend p ++ [[]]) } := by
  induction k using Nat.strong_induction_on with
  | _ k ih =>
    intro fuel f p hk hm hfuel hcur hcap htr hplen
    have hpos : 0 < k * f.maxSend := Nat.mul_pos (by omega) (by omega)
    have hmle : f.maxSend ≤ k * f.maxSend := Nat.le_mul_of_pos_left _ (by omega)
    obtain ⟨g1, rfl⟩ : ∃ g, fuel = g + 1 := ⟨fuel - 1, by omega⟩
    rw [framerWriteLoop_succ]
    rw [if_neg (by intro hco; omega)]
    rw [if_pos hcap]
    dsimp only
    rw [htr]
    rw [if_neg (by simp)]
    by_cases hk1 : k = 1
    · subst hk1
      rw [if_pos (by rw [hcur]; norm_num)]
      dsimp only
      obtain ⟨g2, rfl⟩ : ∃ g, g1 = g + 1 := ⟨g1 - 1, by omega⟩
      rw [framerWriteLoop_succ]
      rw [if_neg (by intro hco; exact absurd hco.2 (by simp))]
      rw [if_neg (by dsimp only; omega)]
      dsimp only
      have hkk : min f.maxSend p.length = f.maxSend := by omega
      rw [hkk]
      have htake : p.take f.maxSend = p := List.take_of_length_le (by omega)
      have hdrop : p.drop f.maxSend = [] := List.drop_eq_nil_of_le (by omega)
      rw [htake, hdrop]
      obtain ⟨g3, rfl⟩ : ∃ g, g2 = g + 1 := ⟨g2 - 1, by omega⟩
      rw [framerWriteLoop_succ]
      rw [if_neg (by intro hco; exact absurd hco.2 (by simp))]
      rw [if_pos (by dsimp only; omega)]
      dsimp only
      rw [if_pos rfl]
      dsimp only
      obtain ⟨g4, rfl⟩ : ∃ g, g3 = g + 1 := ⟨g3 - 1, by omega⟩
      rw [framerWriteLoop_succ]
      rw [if_pos (by constructor <;> simp)]
      have hchunks : chunksOf f.maxSend p = [p] := by
        rw [chunksOf_cons f.maxSend p (by intro hnil; simp [hnil] at hplen; omega)
          (by omega), htake, hdrop, chunksOf_nil]
      rw [hchunks]
      simp only [Except.ok.injEq, Framer.mk.injEq, and_true, true_and]
      and_intros <;> first
        | omega
        | (rw [hcur]; push_cast; ring)
        | simp [encPackets, encPacket, hplen, List.append_assoc]
    · have hklt : ¬((k * f.maxSend : Nat) : Int) = (f.maxSend : Int) := by
        have h2m : 2 * f.maxSend ≤ k * f.maxSend :=
          Nat.mul_le_mul_right _ (by omega)
        have : ¬(k * f.maxSend = f.maxSend) := by omega
        exact_mod_cast this
      have hknotlt : ¬((k * f.maxSend : Nat) : Int) < (f.maxSend : Int) := by
        have : ¬(k * f.maxSend < f.maxSend) := by omega
        exact_mod_cast this
      rw [hcur]
      rw [if_neg hklt, if_neg hknotlt]
      dsimp only
      obtain ⟨g2, rfl⟩ : ∃ g, g1 = g + 1 := ⟨g1 - 1, by omega⟩
      rw [framerWriteLoop_succ]
      rw [if_neg (by intro hco; omega)]
      rw [if_neg (by dsimp only; omega)]
      dsimp only
      have hkk : min f.maxSend p.length = f.maxSend := by omega
      rw [hkk]
      have h2m : 2 * f.maxSend ≤ k * f.maxSend :=
        Nat.mul_le_mul_right _ (by omega)
      have hsub : (k - 1) * f.maxSend = k * f.maxSend - f.maxSend := by
        rw [Nat.sub_mul, Nat.one_mul]
      have hcur2 : ((k * f.maxSend : Nat) : Int) - ((f.maxSend : Nat) : Int) =
          (((k - 1) * f.maxSend : Nat) : Int) := by
        rw [hsub]
        have : (f.maxSend : Nat) ≤ k * f.maxSend := hmle
        push_cast [Nat.cast_sub this]
        ring
      have hdlen : (p.drop f.maxSend).length = (k - 1) * f.maxSend := by
        simp only [List.length_drop, hplen, hsub]
      have hih := ih (k - 1) (by omega) g2
        { f with
          curWritePacketLen := ((k * f.maxSend : Nat) : Int) - ((f.maxSend : Nat) : Int),
          availableWriteCap := f.maxSend - f.maxSend,
          needsTrailer := false,
          nextSeq := (f.nextSeq + 1) % 256,
          wire := f.wire ++ [f.maxSend % 256, f.maxSend / 2 ^ 8 % 256,
            f.maxSend / 2 ^ 16 % 256, f.nextSeq] ++ p.take f.maxSend }
        (p.drop f.maxSend)
        (by omega) (by simpa using hm) (by omega)
        (by dsimp only; rw [hcur2]) (by simp) rfl (by simpa using hdlen)
      rw [show f.wire ++ [f.maxSend % 256, f.maxSend / 2 ^ 8 % 256,
          f.maxSend / 2 ^ 16 % 256, f.nextSeq] ++ p.take f.maxSend =
          (f.wire ++ [f.maxSend % 256, f.maxSend / 2 ^ 8 % 256,
            f.maxSend / 2 ^ 16 % 256, f.nextSeq]) ++ p.take f.maxSend from rfl] at hih
      rw [hih]
      dsimp only
      simp only [Except.ok.injEq, Framer.mk.injEq, and_true, true_and]
      have hchunks : chunksOf f.maxSend p =
          p.take f.maxSend :: chunksOf f.maxSend (p.drop f.maxSend) := by
        refine chunksOf_cons f.maxSend p (by intro hnil; simp [hnil] at hplen; omega)
          (by omega)
      have hlt : (p.take f.maxSend).length = f.maxSend := by
        simp only [List.length_take]
        omega
      and_intros <;> first
        | omega
        | (rw [hcur]; push_cast; ring)
        | (rw [hchunks]; simp [encPackets, encPacket, hlt, List.append_assoc])

theorem connWriteLoop_succ (fuel : Nat) (w : WConn) (b : List Nat) :
    connWriteLoop (fuel + 1) w b =
      (if b.length = 0 then .ok w
      else if w.writeCap = 0 then
        let cap := min w.maxSend w.curPacketSizeRemaining
        connWriteLoop fuel
          { w with
            writeCap := cap,
            seqId := (w.seqId + 1) % 256,
            wire := w.wire ++ [cap % 256, cap / 2 ^ 8 % 256, cap / 2 ^ 16 % 256,
              w.seqId] }
          b
      else
        let k := min w.writeCap b.length
        connWriteLoop fuel
          { w with
            curPacketSizeRemaining := w.curPacketSizeRemaining - k,
            writeCap := w.writeCap - k,
            wire := w.wire ++ b.take k }
          (b.drop k)) := rfl

/-- Running `conn.Write` once over a payload of exactly `k` maximal
chunks: the wire receives exactly the `k` full packets — no trailer
packet is ever emitted on this path. -/
theorem connWriteLoop_run (k : Nat) : ∀ (fuel : Nat) (w : WConn) (p : List Nat),
    1 ≤ k → 1 ≤ w.maxSend → 2 * k + 1 ≤ fuel →
    w.curPacketSizeRemaining = k * w.maxSend →
    w.writeCap = 0 →
    p.length = k * w.maxSend →
    connWriteLoop fuel w p =
      .ok { w with
        curPacketSizeRemaining := 0,
        writeCap := 0,
        seqId := (w.seqId + k) % 256,
        wire := w.wire ++ encPackets w.seqId (chunksOf w.maxSend p) } := by
  induction k using Nat.strong_induction_on with
  | _ k ih =>
    intro fuel w p hk hm hfuel hcur hcap hplen
    have hpos : 0 < k * w.maxSend := Nat.mul_pos (by omega) (by omega)
    have hmle : w.maxSend ≤ k * w.maxSend := Nat.le_mul_of_pos_left _ (by omega)
    obtain ⟨g1, rfl⟩ : ∃ g, fuel = g + 1 := ⟨fuel - 1, by omega⟩
    rw [connWriteLoop_succ]
    rw [if_neg (by omega)]
    rw [if_pos hcap]
    dsimp only
    rw [hcur]
    have hcapv : min w.maxSend (k * w.maxSend) = w.maxSend := by omega
    rw [hcapv]
    obtain ⟨g2, rfl⟩ : ∃ g, g1 = g + 1 := ⟨g1 - 1, by omega⟩
    rw [connWriteLoop_succ]
    rw [if_neg (by omega)]
    rw [if_neg (by dsimp only; omega)]
    dsimp only
    have hkk : min w.maxSend p.length = w.maxSend := by omega
    rw [hkk]
    have hchunks : chunksOf w.maxSend p =
        p.take w.maxSend :: chunksOf w.maxSend (p.drop w.maxSend) := by
      refine chunksOf_cons w.maxSend p (by intro hnil; simp [hnil] at hplen; omega)
        (by omega)
    have hlt : (p.take w.maxSend).length = w.maxSend := by
      simp only [List.length_take]
      omega
    by_cases hk1 : k = 1
    · subst hk1
      have hdrop : p.drop w.maxSend = [] := List.drop_eq_nil_of_le (by omega)
      have htake : p.take w.maxSend = p := List.take_of_length_le (by omega)
      obtain ⟨g3, rfl⟩ : ∃ g, g2 = g + 1 := ⟨g2 - 1, by omega⟩
      rw [hdrop]
      rw [connWriteLoop_succ]
      rw [if_pos (by simp)]
      simp only [Except.ok.injEq, WConn.mk.injEq, and_true, true_and]
      and_intros <;> first
        | omega
        | (rw [hchunks, hdrop, chunksOf_nil, htake]
           simp [encPackets, encPacket, hplen, List.append_assoc])
    · have hsub : (k - 1) * w.maxSend = k * w.maxSend - w.maxSend := by
        rw [Nat.sub_mul, Nat.one_mul]
      have h2m : 2 * w.maxSend ≤ k * w.maxSend :=
        Nat.mul_le_mul_right _ (by omega)
      have hdlen : (p.drop w.maxSend).length = (k - 1) * w.maxSend := by
        simp only [List.length_drop, hplen, hsub]
      have hih := ih (k - 1) (by omega) g2
        { w with
          curPacketSizeRemaining := k * w.maxSend - w.maxSend,
          writeCap := w.maxSend - w.maxSend,
          seqId := (w.seqId + 1) % 256,
          wire := w.wire ++ [w.maxSend % 256, w.maxSend / 2 ^ 8 % 256,
            w.maxSend / 2 ^ 16 % 256, w.seqId] ++ p.take w.maxSend }
        (p.drop w.maxSend)
        (by omega) (by simpa using hm) (by omega)
        (by dsimp only; omega) (by simp) (by simpa using hdlen)
      rw [show w.wire ++ [w.maxSend % 256, w.maxSend / 2 ^ 8 % 256,
          w.maxSend / 2 ^ 16 % 256, w.seqId] ++ p.take w.maxSend =
          (w.wire ++ [w.maxSend % 256, w.maxSend / 2 ^ 8 % 256,
            w.maxSend / 2 ^ 16 % 256, w.seqId]) ++ p.take w.maxSend from rfl] at hih
      rw [show w.maxSend - w.maxSend = 0 from by omega] at hih ⊢
      rw [hih]
      dsimp only
      simp only [Except.ok.injEq, WConn.mk.injEq, and_true, true_and]
      and_intros <;> first
        | omega
        | (rw [hchunks]; simp [encPackets, encPacket, hlt, List.append_assoc])

theorem chunksOf_full (m : Nat) (hm : m ≠ 0) :
    ∀ (k : Nat) (p : List Nat), p.length = k * m →
    (chunksOf m p).length = k ∧ ∀ q ∈ chunksOf m p, q.length = m := by
  intro k
  induction k with
  | zero =>
    intro p hp
    have : p = [] := by
      cases p
      · rfl
      · simp at hp
    subst this
    rw [chunksOf_nil]
    simp
  | succ k ihk =>
    intro p hp
    have hmle : m ≤ p.length := by
      rw [hp, Nat.succ_mul]
      omega
    have hpn : p ≠ [] := by
      intro hnil
      rw [hnil] at hp
      simp at hp
      omega
    rw [chunksOf_cons m p hpn hm]
    have hdlen : (p.drop m).length = k * m := by
      simp only [List.length_drop, hp, Nat.succ_mul]
      omega
    obtain ⟨ih1, ih2⟩ := ihk (p.drop m) hdlen
    constructor
    · simp [ih1]
    · intro q hq
      rcases List.mem_cons.mp hq with hq1 | hq2
      · subst hq1
        simp only [List.length_take]
        omega
      · exact ih2 q hq2

/-- C2 (amended, framer path): for every k ≥ 1, a write of a logical
payload of size exactly k·send_max performed between the framer's
BeginPacket and EndPacket puts k+1 packets on the wire — the k maximal
chunks of the payload, each of length send_max, followed by one
zero-length trailer packet — with consecutive (mod 256) sequence ids as
`encPackets` builds them. -/
theorem C2_framer_continuation_trailer (k : Nat) (p : List Nat) (f : Framer)
    (hk : 1 ≤ k) (hm : 1 ≤ f.maxSend)
    (hidle : f.curWritePacketLen = -1) (hcap : f.availableWriteCap = 0)
    (htr : f.needsTrailer = false)
    (hplen : p.length = k * f.maxSend) :
    ∃ f2,
      framerBegin f ((p.length : Nat) : Int) =
        .ok { f with curWritePacketLen := ((p.length : Nat) : Int) } ∧
      framerWrite (2 * k + 2) { f with curWritePacketLen := ((p.length : Nat) : Int) } p =
        .ok f2 ∧
      framerEnd 1 f2 = .ok f2 ∧
      f2.wire = f.wire ++ encPackets f.nextSeq (chunksOf f.maxSend p ++ [[]]) ∧
      (chunksOf f.maxSend p ++ [[]]).length = k + 1 ∧
      (∀ q ∈ chunksOf f.maxSend p, q.length = f.maxSend) ∧
      ([] : List Nat).length = 0 := by
  have hpos : 0 < k * f.maxSend := Nat.mul_pos (by omega) (by omega)
  have hrun := framerWriteLoop_run k (2 * k + 2)
    { f with curWritePacketLen := ((p.length : Nat) : Int) } p
    hk (by simpa using hm) (le_refl _)
    (by dsimp only; rw [hplen]) (by simpa using hcap) (by simpa using htr)
    (by simpa using hplen)
  obtain ⟨hchlen, hchall⟩ := chunksOf_full f.maxSend (by omega) k p hplen
  refine ⟨{ f with
      curWritePacketLen := 0,
      availableWriteCap := 0,
      needsTrailer := false,
      nextSeq := (f.nextSeq + (k + 1)) % 256,
      wire := f.wire ++ encPackets f.nextSeq (chunksOf f.maxSend p ++ [[]]) },
    ?_, ?_, ?_, ?_, ?_, ?_, rfl⟩
  · unfold framerBegin
    rw [if_neg (by simp [hidle]), if_neg (by simp [hcap]), if_neg (by
      simp only [not_le]
      exact_mod_cast (by omega : 0 < p.length))]
  · unfold framerWrite
    rw [if_neg (by dsimp only; intro hcon; omega), if_neg (by dsimp only; omega)]
    exact hrun
  · unfold framerEnd
    rw [if_neg (by simp)]
    rw [if_neg (by simp)]
  · rfl
  · simp [hchlen]
  · exact hchall

/-- Witness for C2 (framer path) at send_max = 2, payload `[7, 7, 8, 8]`
(k = 2). -/
theorem C2_framer_continuation_trailer_witness :
    ∃ f2,
      framerBegin ⟨2, -1, 0, false, 0, []⟩ ((([7, 7, 8, 8] : List Nat).length : Nat) : Int) =
        .ok ⟨2, (([7, 7, 8, 8] : List Nat).length : Int), 0, false, 0, []⟩ ∧
      framerWrite (2 * 2 + 2) ⟨2, (([7, 7, 8, 8] : List Nat).length : Int), 0, false, 0, []⟩
          [7, 7, 8, 8] = .ok f2 ∧
      framerEnd 1 f2 = .ok f2 ∧
      f2.wire = [] ++ encPackets 0 (chunksOf 2 [7, 7, 8, 8] ++ [[]]) ∧
      (chunksOf 2 [7, 7, 8, 8] ++ [[]]).length = 2 + 1 ∧
      (∀ q ∈ chunksOf 2 [7, 7, 8, 8], q.length = 2) ∧
      ([] : List Nat).length = 0 :=
  C2_framer_continuation_trailer 2 [7, 7, 8, 8] ⟨2, -1, 0, false, 0, []⟩
    (by norm_num) (by norm_num) rfl rfl rfl (by norm_num)

/-- A concrete payload of exactly one send ceiling (2^24 - 1 bytes of
`7`), kept behind a definition so that proofs reason about it by length
rather than by elaborating sixteen million list cells. -/
def bigPayload : List Nat := List.replicate (2 ^ 24 - 1) 7

theorem bigPayload_length : bigPayload.length = 2 ^ 24 - 1 := by
  rw [bigPayload, List.length_replicate]

theorem bigPayload_ne_nil : bigPayload ≠ [] := by
  intro h
  have hl := congrArg List.length h
  rw [bigPayload_length, List.length_nil] at hl
  exact absurd hl (by norm_num)

theorem encPacket_length (s : Nat) (p : List Nat) :
    (encPacket s p).length = p.length + 4 := by
  rw [encPacket, List.length_cons, List.length_cons, List.length_cons,
    List.length_cons]

theorem encPackets_length_single (s : Nat) (p : List Nat) :
    (encPackets s [p]).length = p.length + 4 := by
  rw [encPackets, encPackets, List.append_nil, encPacket_length]

theorem encPackets_length_pair (s : Nat) (p q : List Nat) :
    (encPackets s [p, q]).length = p.length + q.length + 8 := by
  rw [encPackets, encPackets, encPackets, List.append_nil, List.length_append,
    encPacket_length, encPacket_length]
  omega

/-- C2 counterexample (conn path): on the connection's own write path
(conn.go), with the send ceiling at its real value 2^24 - 1, a payload of
exactly 1·send_max bytes written between BeginPacket and EndPacket puts
exactly ONE packet on the wire and EndPacket succeeds without any
trailer — not the k+1 packets the claim requires. -/
theorem C2_counterexample :
    connBeginPacket ⟨2 ^ 24 - 1, 0, 0, 0, []⟩ (2 ^ 24 - 1) =
      .ok ⟨2 ^ 24 - 1, 2 ^ 24 - 1, 0, 0, []⟩ ∧
    connWrite 3 ⟨2 ^ 24 - 1, 2 ^ 24 - 1, 0, 0, []⟩ bigPayload =
      .ok ⟨2 ^ 24 - 1, 0, 0, 1, encPackets 0 [bigPayload]⟩ ∧
    connEndPacket ⟨2 ^ 24 - 1, 0, 0, 1, encPackets 0 [bigPayload]⟩ =
      .ok ⟨2 ^ 24 - 1, 0, 0, 1, encPackets 0 [bigPayload]⟩ ∧
    encPackets 0 [bigPayload] ≠ encPackets 0 [bigPayload, []] := by
  have hch : chunksOf (2 ^ 24 - 1) bigPayload = [bigPayload] := by
    rw [chunksOf_cons _ _ bigPayload_ne_nil (by norm_num)]
    rw [List.take_of_length_le (le_of_eq bigPayload_length),
      List.drop_eq_nil_of_le (le_of_eq bigPayload_length), chunksOf_nil]
  refine ⟨?_, ?_, ?_, ?_⟩
  · unfold connBeginPacket
    rw [if_neg (by push_neg; refine ⟨rfl, by norm_num, rfl⟩)]
  · have hrun := connWriteLoop_run 1 3 ⟨2 ^ 24 - 1, 2 ^ 24 - 1, 0, 0, []⟩
      bigPayload
      (by norm_num) (by norm_num) (by norm_num)
      (by norm_num) rfl (by rw [bigPayload_length]; norm_num)
    unfold connWrite
    rw [if_neg (by rw [bigPayload_length]; norm_num)]
    rw [hrun]
    dsimp only
    rw [hch, List.nil_append]
  · unfold connEndPacket
    rw [if_neg (by push_neg; exact ⟨rfl, rfl⟩)]
  · intro hco
    have hlen := congrArg List.length hco
    rw [encPackets_length_single, encPackets_length_pair, List.length_nil]
      at hlen
    omega

/-! ## Binary row decoding (unnamed/part_000, `resultIter.Next`, lines 74-117)

After the packet has been advanced and the leading `0x00` byte consumed,
`Next` reads the NULL bitmap lazily (one byte per group of 8 bit
positions, with the MySQL offset of 2), then decodes each non-null
column with `conn.ReadValue` (stream.go), and finally re-walks the
fields to hand out slices of the shared `reuseBuf` to the
length-coded-string columns.  The byte supply of the current data packet
is modelled as a plain list; exhausting it mid-read is the
`io.ErrUnexpectedEOF` of the packet-limited reader, and leftover bytes
at the end are the "data packet has more bytes than expected" error. -/

/-- An output column: wire field type and flags (part_002). -/
structure OutField where
  ftype : Nat
  flag : Nat
deriving DecidableEq

/-- A decoded destination slot (`drv.Value`). -/
inductive RowVal where
  | null : RowVal
  | intv : Int → RowVal
  | floatv : Nat → RowVal
  | bytesv : List Nat → RowVal
  | timev : Nat → Nat → Nat → Nat → Nat → Nat → Nat → RowVal
deriving DecidableEq

/-- `readExactly` against the in-packet byte supply. -/
def readExactlyL (n : Nat) (input : List Nat) : Option (List Nat × List Nat) :=
  if n ≤ input.length then some (input.take n, input.drop n) else none

/-- Little-endian byte rendering of the low `w` bytes of `n`. -/
def leBytes : Nat → Nat → List Nat
  | 0, _ => []
  | w + 1, n => n % 256 :: leBytes w (n / 256)

/-- Signed reinterpretation of a `w`-byte unsigned value (`int8`,
`int16`, `int32`, `int64` conversions in `ReadValue`). -/
def intW (w : Nat) (n : Nat) : Int :=
  if n < 2 ^ (8 * w - 1) then (n : Int) else (n : Int) - 2 ^ (8 * w)

/-- The length-coded binary string field types of `ReadValue`. -/
def stringTypes : List Nat := [0, 246, 15, 16, 247, 248, 249, 250, 251, 252, 253, 254]

/-- The date/datetime/timestamp/newdate field types of `ReadValue`. -/
def timeTypes : List Nat := [10, 12, 7, 14]

/-- The temporal tail of `ReadValue`: a size byte then up to three
fixed groups, absent groups defaulting to zero. -/
def readTimeValue (input buf : List Nat) :
    Option (Option RowVal × Int × List Nat × List Nat) :=
  match input with
  | [] => none
  | size :: input1 =>
    if 4 ≤ size then
      match readExactlyL 4 input1 with
      | none => none
      | some (b1, input2) =>
        let year := listLE (b1.take 2)
        let month := b1.getD 2 0
        let day := b1.getD 3 0
        if 7 ≤ size then
          match readExactlyL 3 input2 with
          | none => none
          | some (b2, input3) =>
            let hour := b2.getD 0 0
            let minute := b2.getD 1 0
            let second := b2.getD 2 0
            if 11 ≤ size then
              match readExactlyL 4 input3 with
              | none => none
              | some (b3, input4) =>
                some (some (.timev year (month + 1) day hour minute second
                  (listLE b3 * 1000)), -1, input4, buf)
            else
              some (some (.timev year (month + 1) day hour minute second 0),
                -1, input3, buf)
        else
          some (some (.timev year (month + 1) day 0 0 0 0), -1, input2, buf)
    else
      some (some (.timev 0 1 0 0 0 0 0), -1, input1, buf)

/-- The fixed-width branches of `ReadValue`: read `w` bytes and store a
float (raw IEEE bits kept abstract) or a (possibly sign-reinterpreted)
integer. -/
def fixedValue (isFloat unsigned : Bool) (w : Nat) (input buf : List Nat) :
    Option (Option RowVal × Int × List Nat × List Nat) :=
  match readExactlyL w input with
  | none => none
  | some (bs, input1) =>
    if isFloat then
      some (some (.floatv (listLE bs)), -1, input1, buf)
    else
      some (some (.intv (if unsigned then (listLE bs : Int) else intW w (listLE bs))),
        -1, input1, buf)

/-- The length-coded-binary-string branch of `ReadValue`: the bytes go
into `reuseBuf`, the slot is left for the re-walk, and `bufEndIdx`
records the new buffer length. -/
def stringValue (input buf : List Nat) :
    Option (Option RowVal × Int × List Nat × List Nat) :=
  match readLengthEncodedInt input with
  | none => none
  | some (len, input1) =>
    match readExactlyL len input1 with
    | none => none
    | some (bs, input2) =>
      some (none, ((buf ++ bs).length : Int), input2, buf ++ bs)

/-- Embedding of `conn.ReadValue` (stream.go) against the in-packet byte
supply: returns the value stored into `dest[i]` (`none` when the branch
leaves the slot for the buffer re-walk), the `bufEndIdx` recorded on the
field, the unread remainder, and the grown `reuseBuf`.  The `LongLong`
and `Double` branch ignores the unsigned flag, as the source does. -/
def readValue (o : OutField) (input buf : List Nat) :
    Option (Option RowVal × Int × List Nat × List Nat) :=
  let unsigned := o.flag.land 32 != 0
  if o.ftype = 6 then
    some (some .null, -1, input, buf)
  else if o.ftype = 1 then
    fixedValue false unsigned 1 input buf
  else if o.ftype = 2 ∨ o.ftype = 13 then
    fixedValue false unsigned 2 input buf
  else if o.ftype = 9 ∨ o.ftype = 3 ∨ o.ftype = 4 then
    fixedValue (o.ftype == 4) unsigned 4 input buf
  else if o.ftype = 8 ∨ o.ftype = 5 then
    fixedValue (o.ftype == 5) false 8 input buf
  else if o.ftype ∈ stringTypes then
    stringValue input buf
  else if o.ftype ∈ timeTypes then
    readTimeValue input buf
  else
    none

/-- The NULL-bitmap loop of `Next`: one lazily read bitmap byte per
group, bit `(i+2)` (LSB-first) of the current byte flagging column `i`
as NULL.  `cur = none` is the initial `curBitmapByte = -1`. -/
def nullBitmapLoop : List OutField → Nat → Option Nat → Nat → List Nat →
    Option (List Bool × List Nat)
  | [], _, _, _, input => some ([], input)
  | _f :: fs, i, cur, scratch0, input =>
    let thisByte := (i + 2) / 8
    if some thisByte ≠ cur then
      match input with
      | [] => none
      | b :: input1 =>
        match nullBitmapLoop fs (i + 1) (some thisByte) b input1 with
        | none => none
        | some (flags, rem) =>
          some ((b.land (2 ^ ((i + 2) % 8)) != 0) :: flags, rem)
    else
      match nullBitmapLoop fs (i + 1) cur scratch0 input with
      | none => none
      | some (flags, rem) =>
        some ((scratch0.land (2 ^ ((i + 2) % 8)) != 0) :: flags, rem)

/-- The decode loop of `Next`: null columns get the nil sentinel, the
rest go through `ReadValue`. -/
def decodeLoop : List OutField → List Bool → List Nat → List Nat →
    Option (List (Option RowVal) × List Int × List Nat × List Nat)
  | [], _, input, buf => some ([], [], input, buf)
  | _ :: _, [], _, _ => none
  | f :: fs, fl :: flags, input, buf =>
    if fl then
      match decodeLoop fs flags input buf with
      | none => none
      | some (dest, ends, input2, buf2) =>
        some (some RowVal.null :: dest, (-1 : Int) :: ends, input2, buf2)
    else
      match readValue f input buf with
      | none => none
      | some (dv, e, input1, buf1) =>
        match decodeLoop fs flags input1 buf1 with
        | none => none
        | some (dest, ends, input2, buf2) =>
          some (dv :: dest, e :: ends, input2, buf2)

/-- The buffer re-walk of `Next`: non-null columns with a recorded
`bufEndIdx` receive `buf[bufStartIdx:bufEndIdx]`. -/
def bufWalk : List Bool → List Int → List (Option RowVal) → List Nat → Nat →
    List (Option RowVal)
  | fl :: fs, e :: es, d :: ds, buf, start =>
    if fl then d :: bufWalk fs es ds buf start
    else if e = -1 then d :: bufWalk fs es ds buf start
    else some (.bytesv ((buf.take e.toNat).drop start)) :: bufWalk fs es ds buf e.toNat
  | _, _, ds, _, _ => ds

/-- The data-packet path of `resultIter.Next` (after the `0x00` first
byte): bitmap, decode, buffer re-walk, and the packet-exhaustion
check. -/
def nextRowData (fields : List OutField) (input : List Nat) :
    Option (List (Option RowVal)) :=
  match nullBitmapLoop fields 0 none 0 input with
  | none => none
  | some (flags, input1) =>
    match decodeLoop fields flags input1 [] with
    | none => none
    | some (dest, ends, input2, buf) =>
      if input2 ≠ [] then none
      else some (bufWalk flags ends dest buf 0)

/-- The spec's bitmap predicate: column `i` is flagged NULL when bit
`(i+2) % 8` (LSB-first) of bitmap byte `(i+2) / 8` is set. -/
def bitFlag (bm : List Nat) (i : Nat) : Bool :=
  (bm.getD ((i + 2) / 8) 0).land (2 ^ ((i + 2) % 8)) != 0

/-- The flags of `n` consecutive columns starting at column `i`. -/
def bitmapFlags (bm : List Nat) : Nat → Nat → List Bool
  | _i, 0 => []
  | i, n + 1 => bitFlag bm i :: bitmapFlags bm (i + 1) n

/-- Field types `ReadValue` decodes into a (non-nil) value: everything
it supports except `fieldTypeNULL` (0x06). -/
def valueType (t : Nat) : Bool :=
  decide (t = 1 ∨ t = 2 ∨ t = 13 ∨ t = 9 ∨ t = 3 ∨ t = 4 ∨ t = 8 ∨ t = 5 ∨
    t ∈ stringTypes ∨ t ∈ timeTypes)

theorem bitmapFlags_length (bm : List Nat) : ∀ (n i : Nat),
    (bitmapFlags bm i n).length = n := by
  intro n
  induction n with
  | zero => intro i; rfl
  | succ m ih =>
    intro i
    simp only [bitmapFlags, List.length_cons, ih]

theorem bitmapFlags_getD (bm : List Nat) : ∀ (n i j : Nat), j < n →
    (bitmapFlags bm i n).getD j false = bitFlag bm (i + j) := by
  intro n
  induction n with
  | zero => intro i j hj; omega
  | succ m ih =>
    intro i j hj
    match j with
    | 0 => simp only [bitmapFlags, List.getD_cons_zero, Nat.add_zero]
    | j' + 1 =>
      simp only [bitmapFlags, List.getD_cons_succ]
      rw [ih (i + 1) j' (by omega)]
      congr 1
      omega

theorem nullBitmapLoop_run (bm rest : List Nat) :
    ∀ (fs : List OutField) (i : Nat),
    (∀ j, j < fs.length → (i + j + 3) / 8 < bm.length) →
    nullBitmapLoop fs (i + 1) (some ((i + 2) / 8)) (bm.getD ((i + 2) / 8) 0)
        (bm.drop ((i + 2) / 8 + 1) ++ rest) =
      some (bitmapFlags bm (i + 1) fs.length,
        bm.drop ((i + fs.length + 2) / 8 + 1) ++ rest) := by
  intro fs
  induction fs with
  | nil => intro i _; rfl
  | cons f fs ih =>
    intro i hlt
    have hsh : ∀ j, j < fs.length → (i + 1 + j + 3) / 8 < bm.length := by
      intro j hj
      have h1 := hlt (j + 1) (by simp only [List.length_cons]; omega)
      rw [show i + (j + 1) + 3 = i + 1 + j + 3 from by omega] at h1
      exact h1
    by_cases hb : (i + 1 + 2) / 8 = (i + 2) / 8
    · simp only [nullBitmapLoop]
      rw [if_neg (by simp only [ne_eq, Option.some.injEq, not_not]; omega)]
      have hrec := ih (i + 1) hsh
      rw [hb] at hrec
      rw [hrec]
      dsimp only
      simp only [List.length_cons, bitmapFlags]
      rw [show ((bm.getD ((i + 2) / 8) 0).land (2 ^ ((i + 1 + 2) % 8)) != 0) =
          bitFlag bm (i + 1) from by rw [bitFlag, hb]]
      rw [show i + 1 + fs.length + 2 = i + (fs.length + 1) + 2 from by omega]
    · have hdiv : (i + 1 + 2) / 8 = (i + 2) / 8 + 1 := by omega
      have hin : (i + 2) / 8 + 1 < bm.length := by
        have h1 := hlt 0 (by simp only [List.length_cons]; omega)
        omega
      simp only [nullBitmapLoop]
      rw [if_pos (by simp only [ne_eq, Option.some.injEq]; omega)]
      rw [List.drop_eq_getElem_cons hin, List.cons_append]
      dsimp only
      rw [hdiv]
      have hrec := ih (i + 1) hsh
      rw [hdiv] at hrec
      rw [show bm.getD ((i + 2) / 8 + 1) 0 = bm[(i + 2) / 8 + 1] from
        List.getD_eq_getElem bm 0 hin] at hrec
      rw [hrec]
      dsimp only
      simp only [List.length_cons, bitmapFlags]
      rw [show ((bm[(i + 2) / 8 + 1]).land (2 ^ ((i + 1 + 2) % 8)) != 0) =
          bitFlag bm (i + 1) from by
        rw [bitFlag, hdiv, List.getD_eq_getElem bm 0 hin]]
      rw [show i + 1 + fs.length + 2 = i + (fs.length + 1) + 2 from by omega]

theorem nullBitmapLoop_init (bm rest : List Nat) (f0 : OutField)
    (fs : List OutField)
    (h : ∀ j, j < fs.length + 1 → (j + 2) / 8 < bm.length) :
    nullBitmapLoop (f0 :: fs) 0 none 0 (bm ++ rest) =
      some (bitmapFlags bm 0 (fs.length + 1),
        bm.drop ((fs.length + 2) / 8 + 1) ++ rest) := by
  have hbm0 : 0 < bm.length := by
    have h1 := h 0 (by omega)
    omega
  simp only [nullBitmapLoop]
  rw [if_pos (by simp)]
  rw [show (bm ++ rest) = bm[0] :: (bm.drop 1 ++ rest) from by
    rw [← List.cons_append, ← List.drop_eq_getElem_cons hbm0, List.drop_zero]]
  dsimp only
  have hsh : ∀ j, j < fs.length → (0 + j + 3) / 8 < bm.length := by
    intro j hj
    have h1 := h (j + 1) (by omega)
    rw [show j + 1 + 2 = 0 + j + 3 from by omega] at h1
    exact h1
  have hrec := nullBitmapLoop_run bm rest fs 0 hsh
  rw [show (0 + 2) / 8 = 0 from by norm_num] at hrec
  rw [show bm.getD 0 0 = bm[0] from List.getD_eq_getElem bm 0 hbm0] at hrec
  rw [show (0 : Nat) + 1 = 1 from rfl] at hrec
  rw [hrec]
  dsimp only
  simp only [bitmapFlags]
  rw [show ((bm[0]).land (2 ^ ((0 + 2) % 8)) != 0) = bitFlag bm 0 from by
    rw [bitFlag]
    rw [show ((0 : Nat) + 2) / 8 = 0 from rfl]
    rw [List.getD_eq_getElem bm 0 hbm0]]
  rw [show 0 + fs.length + 2 = fs.length + 2 from by omega]

theorem fixedValue_spec (isFloat unsigned : Bool) (w : Nat)
    (input buf : List Nat) (dv : Option RowVal) (e : Int)
    (input1 buf1 : List Nat)
    (h : fixedValue isFloat unsigned w input buf = some (dv, e, input1, buf1)) :
    e = -1 ∧ ∃ v, dv = some v ∧ v ≠ RowVal.null := by
  rw [fixedValue] at h
  cases hx : readExactlyL w input with
  | none => rw [hx] at h; cases h
  | some p =>
    obtain ⟨bs, inp⟩ := p
    rw [hx] at h
    dsimp only at h
    split_ifs at h <;>
      simp only [Option.some.injEq, Prod.mk.injEq] at h <;>
      exact ⟨h.2.1.symm, _, h.1.symm, by intro hc; cases hc⟩

theorem stringValue_spec (input buf : List Nat) (dv : Option RowVal) (e : Int)
    (input1 buf1 : List Nat)
    (h : stringValue input buf = some (dv, e, input1, buf1)) :
    dv = none ∧ 0 ≤ e := by
  rw [stringValue] at h
  cases hl : readLengthEncodedInt input with
  | none => rw [hl] at h; cases h
  | some p =>
    obtain ⟨len, inp⟩ := p
    rw [hl] at h
    dsimp only at h
    cases hx : readExactlyL len inp with
    | none => rw [hx] at h; cases h
    | some p2 =>
      obtain ⟨bs, inp2⟩ := p2
      rw [hx] at h
      dsimp only at h
      simp only [Option.some.injEq, Prod.mk.injEq] at h
      refine ⟨h.1.symm, ?_⟩
      rw [← h.2.1]
      omega

theorem readTimeValue_spec (input buf : List Nat) (dv : Option RowVal) (e : Int)
    (input1 buf1 : List Nat)
    (h : readTimeValue input buf = some (dv, e, input1, buf1)) :
    e = -1 ∧ ∃ y mo d hh mi s mc, dv = some (RowVal.timev y mo d hh mi s mc) := by
  rw [readTimeValue.eq_def] at h
  match input with
  | [] => cases h
  | size :: inp1 =>
    dsimp only at h
    split_ifs at h with h4 h7 h11
    · cases hx1 : readExactlyL 4 inp1 with
      | none => rw [hx1] at h; cases h
      | some p1 =>
        obtain ⟨b1, inp2⟩ := p1
        rw [hx1] at h
        dsimp only at h
        cases hx2 : readExactlyL 3 inp2 with
        | none => rw [hx2] at h; cases h
        | some p2 =>
          obtain ⟨b2, inp3⟩ := p2
          rw [hx2] at h
          dsimp only at h
          cases hx3 : readExactlyL 4 inp3 with
          | none => rw [hx3] at h; cases h
          | some p3 =>
            obtain ⟨b3, inp4⟩ := p3
            rw [hx3] at h
            dsimp only at h
            simp only [Option.some.injEq, Prod.mk.injEq] at h
            exact ⟨h.2.1.symm, _, _, _, _, _, _, _, h.1.symm⟩
    · cases hx1 : readExactlyL 4 inp1 with
      | none => rw [hx1] at h; cases h
      | some p1 =>
        obtain ⟨b1, inp2⟩ := p1
        rw [hx1] at h
        dsimp only at h
        cases hx2 : readExactlyL 3 inp2 with
        | none => rw [hx2] at h; cases h
        | some p2 =>
          obtain ⟨b2, inp3⟩ := p2
          rw [hx2] at h
          dsimp only at h
          simp only [Option.some.injEq, Prod.mk.injEq] at h
          exact ⟨h.2.1.symm, _, _, _, _, _, _, _, h.1.symm⟩
    · cases hx1 : readExactlyL 4 inp1 with
      | none => rw [hx1] at h; cases h
      | some p1 =>
        obtain ⟨b1, inp2⟩ := p1
        rw [hx1] at h
        dsimp only at h
        simp only [Option.some.injEq, Prod.mk.injEq] at h
        exact ⟨h.2.1.symm, _, _, _, _, _, _, _, h.1.symm⟩
    · simp only [Option.some.injEq, Prod.mk.injEq] at h
      exact ⟨h.2.1.symm, _, _, _, _, _, _, _, h.1.symm⟩

theorem readValue_spec (f : OutField) (input buf : List Nat)
    (dv : Option RowVal) (e : Int) (input1 buf1 : List Nat)
    (hvt : valueType f.ftype = true)
    (h : readValue f input buf = some (dv, e, input1, buf1)) :
    (e = -1 → ∃ v, dv = some v ∧ v ≠ RowVal.null) ∧ (e ≠ -1 → 0 ≤ e) := by
  rw [readValue] at h
  split_ifs at h with h6 h1 h2 h9 h8 hs ht
  · rw [h6] at hvt
    exact absurd hvt (by decide)
  · obtain ⟨he, v, hv, hvn⟩ := fixedValue_spec _ _ _ _ _ _ _ _ _ h
    exact ⟨fun _ => ⟨v, hv, hvn⟩, fun hne => absurd he hne⟩
  · obtain ⟨he, v, hv, hvn⟩ := fixedValue_spec _ _ _ _ _ _ _ _ _ h
    exact ⟨fun _ => ⟨v, hv, hvn⟩, fun hne => absurd he hne⟩
  · obtain ⟨he, v, hv, hvn⟩ := fixedValue_spec _ _ _ _ _ _ _ _ _ h
    exact ⟨fun _ => ⟨v, hv, hvn⟩, fun hne => absurd he hne⟩
  · obtain ⟨he, v, hv, hvn⟩ := fixedValue_spec _ _ _ _ _ _ _ _ _ h
    exact ⟨fun _ => ⟨v, hv, hvn⟩, fun hne => absurd he hne⟩
  · obtain ⟨_, he⟩ := stringValue_spec _ _ _ _ _ _ h
    constructor
    · intro hmin
      rw [hmin] at he
      exact absurd he (by norm_num)
    · intro _
      exact he
  · obtain ⟨he, y, mo, d, hh, mi, s, mc, hdv⟩ :=
      readTimeValue_spec input buf dv e input1 buf1 h
    exact ⟨fun _ => ⟨_, hdv, by intro hc; cases hc⟩, fun hne => absurd he hne⟩

theorem decodeLoop_walk : ∀ (fields : List OutField) (flags : List Bool)
    (input buf : List Nat) (dest : List (Option RowVal)) (ends : List Int)
    (input2 buf2 : List Nat),
    (∀ f ∈ fields, valueType f.ftype = true) →
    decodeLoop fields flags input buf = some (dest, ends, input2, buf2) →
    dest.length = fields.length ∧
    ∀ (buf3 : List Nat) (start : Nat) (j : Nat), j < fields.length →
      ((bufWalk flags ends dest buf3 start).getD j none = some RowVal.null ↔
        flags.getD j false = true) ∧
      (flags.getD j false = false →
        ∃ v, (bufWalk flags ends dest buf3 start).getD j none = some v ∧
          v ≠ RowVal.null) := by
  intro fields
  induction fields with
  | nil =>
    intro flags input buf dest ends input2 buf2 _ h
    simp only [decodeLoop, Option.some.injEq, Prod.mk.injEq] at h
    obtain ⟨rfl, rfl, _, _⟩ := h
    exact ⟨rfl, fun buf3 start j hj => absurd hj (by simp)⟩
  | cons f fs ih =>
    intro flags input buf dest ends input2 buf2 hvt h
    match flags with
    | [] =>
      simp only [decodeLoop] at h
      cases h
    | fl :: flags1 =>
      simp only [decodeLoop] at h
      cases fl with
      | true =>
        rw [if_pos rfl] at h
        cases hdl : decodeLoop fs flags1 input buf with
        | none => rw [hdl] at h; cases h
        | some q =>
          obtain ⟨dest1, ends1, in2, b2⟩ := q
          rw [hdl] at h
          dsimp only at h
          simp only [Option.some.injEq, Prod.mk.injEq] at h
          obtain ⟨rfl, rfl, rfl, rfl⟩ := h
          obtain ⟨hlen1, hprop1⟩ := ih flags1 input buf dest1 ends1 _ _
            (fun g hg => hvt g (List.mem_cons_of_mem f hg)) hdl
          refine ⟨by simp [hlen1], fun buf3 start j hj => ?_⟩
          simp only [bufWalk, if_pos rfl]
          match j with
          | 0 =>
            refine ⟨⟨fun _ => rfl, fun _ => rfl⟩, fun hc => absurd hc (by simp)⟩
          | j' + 1 =>
            simp only [List.getD_cons_succ]
            exact hprop1 buf3 start j' (by simpa using hj)
      | false =>
        rw [if_neg (by simp)] at h
        cases hrv : readValue f input buf with
        | none => rw [hrv] at h; cases h
        | some q =>
          obtain ⟨dv, e, in1, b1⟩ := q
          rw [hrv] at h
          dsimp only at h
          cases hdl : decodeLoop fs flags1 in1 b1 with
          | none => rw [hdl] at h; cases h
          | some q2 =>
            obtain ⟨dest1, ends1, in2, b2⟩ := q2
            rw [hdl] at h
            dsimp only at h
            simp only [Option.some.injEq, Prod.mk.injEq] at h
            obtain ⟨rfl, rfl, rfl, rfl⟩ := h
            have spec := readValue_spec f input buf dv e in1 b1
              (hvt f (List.mem_cons_self f fs)) hrv
            obtain ⟨hlen1, hprop1⟩ := ih flags1 in1 b1 dest1 ends1 _ _
              (fun g hg => hvt g (List.mem_cons_of_mem f hg)) hdl
            refine ⟨by simp [hlen1], fun buf3 start j hj => ?_⟩
            simp only [bufWalk, Bool.false_eq_true, if_neg, if_false]
            by_cases he : e = -1
            · obtain ⟨v, hv, hvn⟩ := spec.1 he
              rw [if_pos he]
              match j with
              | 0 =>
                subst hv
                constructor
                · constructor
                  · intro hc
                    simp only [List.getD_cons_zero, Option.some.injEq] at hc
                    exact absurd hc hvn
                  · intro hc
                    exact absurd hc (by simp)
                · intro _
                  exact ⟨v, by simp, hvn⟩
              | j' + 1 =>
                simp only [List.getD_cons_succ]
                exact hprop1 buf3 start j' (by simpa using hj)
            · rw [if_neg he]
              match j with
              | 0 =>
                constructor
                · constructor
                  · intro hc
                    simp only [List.getD_cons_zero, Option.some.injEq] at hc
                    cases hc
                  · intro hc
                    exact absurd hc (by simp)
                · intro _
                  exact ⟨_, List.getD_cons_zero, by intro hc; cases hc⟩
              | j' + 1 =>
                simp only [List.getD_cons_succ]
                exact hprop1 buf3 e.toNat j' (by simpa using hj)

theorem bufWalk_length : ∀ (flags : List Bool) (ends : List Int)
    (dest : List (Option RowVal)) (buf : List Nat) (start : Nat),
    (bufWalk flags ends dest buf start).length = dest.length := by
  intro flags
  induction flags with
  | nil => intro ends dest buf start; rfl
  | cons fl fs ih =>
    intro ends dest buf start
    match ends, dest with
    | [], _ => rfl
    | e :: es, [] => rfl
    | e :: es, d :: ds =>
      simp only [bufWalk]
      split_ifs <;> simp only [List.length_cons, ih]

/-- C8 (amended): for columns whose field types all decode into values
(`ReadValue` support minus `fieldTypeNULL`), a successful `Next` data
packet stores the nil sentinel in exactly the slots whose NULL-bitmap
bit `(i+2)` (LSB-first, byte `(i+2)/8`) is set, and a decoded non-nil
value in exactly the complementary slots. -/
theorem C8_null_bitmap (fields : List OutField) (bm body : List Nat)
    (dest : List (Option RowVal))
    (hN : 1 ≤ fields.length)
    (hbm : bm.length = (fields.length + 1) / 8 + 1)
    (hvt : ∀ f ∈ fields, valueType f.ftype = true)
    (hrun : nextRowData fields (bm ++ body) = some dest) :
    dest.length = fields.length ∧
    ∀ j, j < fields.length →
      (dest.getD j none = some RowVal.null ↔ bitFlag bm j = true) ∧
      (bitFlag bm j = false →
        ∃ v, dest.getD j none = some v ∧ v ≠ RowVal.null) := by
  match fields with
  | [] => simp at hN
  | f0 :: fs =>
    simp only [List.length_cons] at hbm
    have hb : ∀ j, j < fs.length + 1 → (j + 2) / 8 < bm.length := by
      intro j hj
      rw [hbm]
      omega
    have hinit := nullBitmapLoop_init bm body f0 fs hb
    rw [nextRowData.eq_def] at hrun
    rw [hinit] at hrun
    dsimp only at hrun
    rw [List.drop_eq_nil_of_le (by omega), List.nil_append] at hrun
    cases hdl : decodeLoop (f0 :: fs) (bitmapFlags bm 0 (fs.length + 1)) body []
      with
    | none => rw [hdl] at hrun; cases hrun
    | some q =>
      obtain ⟨dest1, ends1, in2, b2⟩ := q
      rw [hdl] at hrun
      dsimp only at hrun
      split_ifs at hrun with hni
      simp only [Option.some.injEq] at hrun
      obtain ⟨hlen, hw⟩ := decodeLoop_walk (f0 :: fs)
        (bitmapFlags bm 0 (fs.length + 1)) body [] dest1 ends1 in2 b2 hvt hdl
      subst hrun
      constructor
      · rw [bufWalk_length, hlen]
      · intro j hj
        have hj' : j < fs.length + 1 := by simpa using hj
        have hfl := bitmapFlags_getD bm (fs.length + 1) 0 j hj'
        rw [Nat.zero_add] at hfl
        have := hw b2 0 j hj
        rw [hfl] at this
        exact this

/-- C8 counterexample: a single column of field type `fieldTypeNULL`
(0x06) whose NULL-bitmap bit is clear still receives the nil sentinel,
so nil is not stored in exactly the bitmap-flagged slots. -/
theorem C8_counterexample :
    nextRowData [⟨6, 0⟩] [0] = some [some RowVal.null] ∧
    bitFlag [0] 0 = false := by
  exact ⟨rfl, rfl⟩

/-- Witness for C8: a Tiny column flagged NULL by bitmap byte 0x04 and a
LongLong column that decodes the value 1. -/
theorem C8_null_bitmap_witness :
    ([some RowVal.null, some (RowVal.intv 1)] : List (Option RowVal)).length =
      ([⟨1, 0⟩, ⟨8, 0⟩] : List OutField).length ∧
    ∀ j, j < ([⟨1, 0⟩, ⟨8, 0⟩] : List OutField).length →
      (([some RowVal.null, some (RowVal.intv 1)] :
          List (Option RowVal)).getD j none = some RowVal.null ↔
        bitFlag [4] j = true) ∧
      (bitFlag [4] j = false →
        ∃ v, ([some RowVal.null, some (RowVal.intv 1)] :
          List (Option RowVal)).getD j none = some v ∧ v ≠ RowVal.null) :=
  C8_null_bitmap [⟨1, 0⟩, ⟨8, 0⟩] [4] [1, 0, 0, 0, 0, 0, 0, 0]
    [some RowVal.null, some (RowVal.intv 1)]
    (by decide) (by decide) (by decide) (by rfl)

/-! ## Statement execution send path (unnamed/part_003, `stmt.sendQuery`
and `stmt.WriteObj`)

`sendQuery` pre-computes the packet size with a counting sink (each
non-nil parameter sized by `WriteObj` against `globalCountingWriter`),
then writes the command header, NULL mask, new-params-bound byte, types
and values between `BeginPacket` and `EndPacket`.  `WriteObj` is a pure
function of the parameter, so both passes are modelled by the single
function `writeObj` returning the bytes written together with the size
and field type it reports. -/

/-- A statement parameter (`drv.Value`): the supported runtime shapes of
`WriteObj` plus nil.  Floats are carried as their IEEE-754 bit patterns
(`math.Float64bits` is outside this repository), strings as byte
lists, and times as broken-down components with `micro` the
microsecond count. -/
inductive PVal where
  | pnull : PVal
  | pint : Int → PVal
  | pfloat : Nat → PVal
  | pbool : Bool → PVal
  | pbytes : List Nat → PVal
  | pstr : List Nat → PVal
  | ptime : Nat → Nat → Nat → Nat → Nat → Nat → Nat → PVal
deriving DecidableEq

/-- The `params[i] == nil` test. -/
def isNullParam : PVal → Bool
  | .pnull => true
  | _ => false

/-- Embedding of `stmt.WriteObj` (part_003, lines 301-371): the bytes it
writes to `w`, the byte count it returns, and the field type it
reports.  The default case (including nil) is the conversion error. -/
def writeObj : PVal → Option (List Nat × Nat × Nat)
  | .pnull => none
  | .pint n => some (leBytes 8 ((n % (2 ^ 64 : Int)).toNat), 8, 8)
  | .pfloat bits => some (leBytes 8 bits, 8, 5)
  | .pbool b => some ([if b then 1 else 0], 1, 1)
  | .pbytes bs => some (writeLengthEncodedInt bs.length ++ bs,
      (writeLengthEncodedInt bs.length).length + bs.length, 254)
  | .pstr bs => some (writeLengthEncodedInt bs.length ++ bs,
      (writeLengthEncodedInt bs.length).length + bs.length, 254)
  | .ptime y mo d hh mi s micro =>
    let block := leBytes 2 y ++
      [(mo - 1) % 256, d % 256, hh % 256, mi % 256, s % 256] ++
      leBytes 4 micro
    let size := if micro ≠ 0 then 12 else
      if s ≠ 0 ∨ mi ≠ 0 ∨ hh ≠ 0 then 8 else
      if y ≠ 0 ∨ mo ≠ 1 ∨ d ≠ 0 then 5 else 1
    some ((size - 1) :: block.take (size - 1), size, 7)

/-- The counting pass of `sendQuery`: per-parameter sizes from
`WriteObj` against the counting writer, nil parameters skipped, errors
propagated. -/
def sizeOfParams : List PVal → Option Nat
  | [] => some 0
  | p :: ps =>
    if isNullParam p then sizeOfParams ps
    else
      match writeObj p, sizeOfParams ps with
      | some (_, n, _), some m => some (n + m)
      | _, _ => none

/-- The total of the per-parameter sizes (the value `sizeOfParams`
computes when every parameter is supported). -/
def paramsSize : List PVal → Nat
  | [] => 0
  | p :: ps =>
    (if isNullParam p then 0 else
      match writeObj p with
      | some (_, n, _) => n
      | none => 0) + paramsSize ps

/-- The field type sent in the types section: 0 for nil parameters,
otherwise the type `WriteObj` reports. -/
def ftypeOf (p : PVal) : Nat :=
  if isNullParam p then 0
  else
    match writeObj p with
    | some (_, _, t) => t
    | none => 0

/-- NULL-mask byte `i` of the parameter list: bit `idx % 8` set for
each nil parameter `idx` in `[8i, 8i+8)`. -/
def nullMaskByte (params : List PVal) (i : Nat) : Nat :=
  (List.range 8).foldl (fun acc j =>
    if 8 * i + j < params.length then
      if isNullParam (params.getD (8 * i + j) .pnull) then
        acc.lor (2 ^ j)
      else acc
    else acc) 0

/-- The byte chunks of the values section: one `WriteObj` write per
non-nil parameter. -/
def valueChunks : List PVal → List (List Nat)
  | [] => []
  | p :: ps =>
    if isNullParam p then valueChunks ps
    else (match writeObj p with
      | some (bs, _, _) => bs
      | none => []) :: valueChunks ps

/-- A sequence of `conn.Write` calls, one per chunk. -/
def writeBytesSeq (fuel : Nat) : WConn → List (List Nat) → Except String WConn
  | c, [] => .ok c
  | c, b :: bs =>
    match connWrite fuel c b with
    | .error e => .error e
    | .ok c1 => writeBytesSeq fuel c1 bs

/-- The packet size `sendQuery` pre-computes: 10 fixed bytes, plus the
NULL mask, new-params-bound byte, types and values when there are
parameters. -/
def querySize (params : List PVal) : Nat :=
  1 + 4 + 1 + 4 + (if 0 < params.length then
    (params.length + 7) / 8 + 1 + params.length * 2 + paramsSize params else 0)

/-- Embedding of `stmt.sendQuery` (part_003, lines 169-291) over the
connection write path: field-count check, sequence-id reset, size
pre-computation, then header, NULL mask, bound byte, types and values
between `BeginPacket` and `EndPacket` (panics are the `.error`s of the
underlying operations). -/
def sendQuery (fuel : Nat) (c0 : WConn) (stid numInputs : Nat)
    (params : List PVal) : Except String WConn :=
  if numInputs ≠ params.length then .error "field count mismatch" else
  let c := { c0 with seqId := 0 }
  match sizeOfParams params with
  | none => .error "cannot convert type"
  | some psize =>
    let size := 1 + 4 + 1 + 4 + (if 0 < params.length then
      (params.length + 7) / 8 + 1 + params.length * 2 + psize else 0)
    match connBeginPacket c size with
    | .error e => .error e
    | .ok c1 =>
      match connWrite fuel c1 (23 :: (leBytes 4 stid ++ [0, 1, 0, 0, 0])) with
      | .error e => .error e
      | .ok c2 =>
        if params.length = 0 then connEndPacket c2
        else
          match writeBytesSeq fuel c2 ((List.range ((params.length + 7) / 8)).map
              (fun i => [nullMaskByte params i])) with
          | .error e => .error e
          | .ok c3 =>
            match connWrite fuel c3 [1] with
            | .error e => .error e
            | .ok c4 =>
              match writeBytesSeq fuel c4
                  (params.map (fun p => [ftypeOf p, 0])) with
              | .error e => .error e
              | .ok c5 =>
                match writeBytesSeq fuel c5 (valueChunks params) with
                | .error e => .error e
                | .ok c6 => connEndPacket c6

theorem leBytes_length : ∀ (w n : Nat), (leBytes w n).length = w := by
  intro w
  induction w with
  | zero => intro n; rfl
  | succ w ih =>
    intro n
    simp only [leBytes, List.length_cons, ih]

theorem writeObj_size (p : PVal) (bs : List Nat) (n t : Nat)
    (h : writeObj p = some (bs, n, t)) : bs.length = n := by
  match p with
  | .pnull => cases h
  | .pint m =>
    simp only [writeObj, Option.some.injEq, Prod.mk.injEq] at h
    rw [← h.1, leBytes_length, h.2.1]
  | .pfloat bits =>
    simp only [writeObj, Option.some.injEq, Prod.mk.injEq] at h
    rw [← h.1, leBytes_length, h.2.1]
  | .pbool b =>
    simp only [writeObj, Option.some.injEq, Prod.mk.injEq] at h
    rw [← h.1, ← h.2.1]
    rfl
  | .pbytes l =>
    simp only [writeObj, Option.some.injEq, Prod.mk.injEq] at h
    rw [← h.1, ← h.2.1, List.length_append]
  | .pstr l =>
    simp only [writeObj, Option.some.injEq, Prod.mk.injEq] at h
    rw [← h.1, ← h.2.1, List.length_append]
  | .ptime y mo d hh mi s micro =>
    simp only [writeObj, Option.some.injEq, Prod.mk.injEq] at h
    have hblock : (leBytes 2 y ++
        [(mo - 1) % 256, d % 256, hh % 256, mi % 256, s % 256] ++
        leBytes 4 micro).length = 11 := by
      simp only [List.length_append, leBytes_length, List.length_cons,
        List.length_nil]
    rw [← h.1, ← h.2.1, List.length_cons, List.length_take, hblock]
    split_ifs <;> norm_num

theorem sizeOfParams_eq : ∀ (params : List PVal),
    sizeOfParams params = some (paramsSize params) := by
  intro params
  induction params with
  | nil => rfl
  | cons p ps ih =>
    match p with
    | .pnull => simp only [sizeOfParams, paramsSize, isNullParam, if_pos,
        ih, Nat.zero_add]
    | .pint m => simp only [sizeOfParams, paramsSize, isNullParam,
        Bool.false_eq_true, if_false, writeObj, ih]
    | .pfloat bits => simp only [sizeOfParams, paramsSize, isNullParam,
        Bool.false_eq_true, if_false, writeObj, ih]
    | .pbool b => simp only [sizeOfParams, paramsSize, isNullParam,
        Bool.false_eq_true, if_false, writeObj, ih]
    | .pbytes l => simp only [sizeOfParams, paramsSize, isNullParam,
        Bool.false_eq_true, if_false, writeObj, ih]
    | .pstr l => simp only [sizeOfParams, paramsSize, isNullParam,
        Bool.false_eq_true, if_false, writeObj, ih]
    | .ptime y mo d hh mi s micro => simp only [sizeOfParams, paramsSize,
        isNullParam, Bool.false_eq_true, if_false, writeObj, ih]

theorem connWrite_nil (fuel : Nat) (c : WConn) (b : List Nat)
    (hf : 1 ≤ fuel) (hb : b.length = 0) : connWrite fuel c b = .ok c := by
  obtain ⟨g, rfl⟩ : ∃ g, fuel = g + 1 := ⟨fuel - 1, by omega⟩
  rw [connWrite, if_neg (by omega), connWriteLoop_succ, if_pos hb]

theorem connWriteLoop_fit (fuel : Nat) (c : WConn) (b : List Nat)
    (hf : 2 ≤ fuel) (hb : 0 < b.length) (hcap : b.length ≤ c.writeCap) :
    connWriteLoop fuel c b = .ok { c with
      curPacketSizeRemaining := c.curPacketSizeRemaining - b.length,
      writeCap := c.writeCap - b.length,
      wire := c.wire ++ b } := by
  obtain ⟨g, rfl⟩ : ∃ g, fuel = g + 2 := ⟨fuel - 2, by omega⟩
  rw [connWriteLoop_succ, if_neg (by omega), if_neg (by omega)]
  dsimp only
  rw [show min c.writeCap b.length = b.length from by omega]
  rw [List.take_length, List.drop_length]
  rw [connWriteLoop_succ, if_pos List.length_nil]

theorem connWrite_fit (fuel : Nat) (c : WConn) (b : List Nat)
    (hf : 2 ≤ fuel) (hb : 0 < b.length) (hcap : b.length ≤ c.writeCap)
    (hrem : b.length ≤ c.curPacketSizeRemaining) :
    connWrite fuel c b = .ok { c with
      curPacketSizeRemaining := c.curPacketSizeRemaining - b.length,
      writeCap := c.writeCap - b.length,
      wire := c.wire ++ b } := by
  rw [connWrite, if_neg (by omega)]
  exact connWriteLoop_fit fuel c b hf hb hcap

theorem connWrite_open (fuel : Nat) (c : WConn) (b : List Nat)
    (hf : 3 ≤ fuel) (hb : 0 < b.length) (hcap0 : c.writeCap = 0)
    (hrem : b.length ≤ c.curPacketSizeRemaining)
    (hms : c.curPacketSizeRemaining ≤ c.maxSend) :
    connWrite fuel c b = .ok { c with
      curPacketSizeRemaining := c.curPacketSizeRemaining - b.length,
      writeCap := c.curPacketSizeRemaining - b.length,
      seqId := (c.seqId + 1) % 256,
      wire := c.wire ++ [c.curPacketSizeRemaining % 256,
        c.curPacketSizeRemaining / 2 ^ 8 % 256,
        c.curPacketSizeRemaining / 2 ^ 16 % 256, c.seqId] ++ b } := by
  obtain ⟨g, rfl⟩ : ∃ g, fuel = g + 1 := ⟨fuel - 1, by omega⟩
  rw [connWrite, if_neg (by omega), connWriteLoop_succ,
    if_neg (by omega), if_pos hcap0]
  dsimp only
  rw [show min c.maxSend c.curPacketSizeRemaining = c.curPacketSizeRemaining
    from by omega]
  rw [connWriteLoop_fit g _ b (by omega) hb (by dsimp only; omega)]

theorem writeBytesSeq_run (fuel : Nat) : ∀ (chunks : List (List Nat)) (c : WConn),
    2 ≤ fuel →
    (chunks.map List.length).sum ≤ c.writeCap →
    c.writeCap ≤ c.curPacketSizeRemaining →
    writeBytesSeq fuel c chunks = .ok { c with
      curPacketSizeRemaining :=
        c.curPacketSizeRemaining - (chunks.map List.length).sum,
      writeCap := c.writeCap - (chunks.map List.length).sum,
      wire := c.wire ++ chunks.flatten } := by
  intro chunks
  induction chunks with
  | nil =>
    intro c _ _ _
    simp [writeBytesSeq]
  | cons ch chs ih =>
    intro c hf hsum hrem
    simp only [List.map_cons, List.sum_cons] at hsum
    simp only [writeBytesSeq]
    by_cases hch : ch.length = 0
    · obtain rfl := List.length_eq_zero.mp hch
      rw [connWrite_nil fuel c [] (by omega) rfl]
      dsimp only
      rw [ih c hf (by simpa using hsum) hrem]
      simp
    · rw [connWrite_fit fuel c ch hf (by omega) (by omega) (by omega)]
      dsimp only
      rw [ih _ hf (by dsimp only; omega) (by dsimp only; omega)]
      simp only [List.map_cons, List.sum_cons, List.flatten_cons,
        Except.ok.injEq, WConn.mk.injEq]
      and_intros <;> first | trivial | omega | rw [List.append_assoc]

theorem sum_map_const {α : Type} (k : Nat) : ∀ (l : List α),
    (l.map (fun _ => k)).sum = k * l.length := by
  intro l
  induction l with
  | nil => simp
  | cons a l ih =>
    simp only [List.map_cons, List.sum_cons, List.length_cons, ih,
      Nat.mul_succ]
    omega

theorem maskChunks_sum (params : List PVal) (m : Nat) :
    (((List.range m).map (fun i => [nullMaskByte params i])).map
      List.length).sum = m := by
  rw [List.map_map]
  have he : (List.length ∘ fun i => [nullMaskByte params i]) =
      fun (_ : Nat) => 1 := rfl
  rw [he, sum_map_const 1, List.length_range, Nat.one_mul]

theorem typeChunks_sum (params : List PVal) :
    ((params.map (fun p => [ftypeOf p, 0])).map List.length).sum =
      2 * params.length := by
  rw [List.map_map]
  have he : (List.length ∘ fun p => [ftypeOf p, 0]) =
      fun (_ : PVal) => 2 := rfl
  rw [he, sum_map_const 2]

theorem valueChunks_sum : ∀ (params : List PVal),
    ((valueChunks params).map List.length).sum = paramsSize params := by
  intro params
  induction params with
  | nil => rfl
  | cons p ps ih =>
    match p with
    | .pnull =>
      simp only [valueChunks, isNullParam, if_pos, paramsSize, ih]
      omega
    | .pint m =>
      have hs := writeObj_size (.pint m) _ _ _ rfl
      simp only [valueChunks, isNullParam, Bool.false_eq_true, if_false,
        writeObj, paramsSize, List.map_cons, List.sum_cons, ih]
      omega
    | .pfloat bits =>
      have hs := writeObj_size (.pfloat bits) _ _ _ rfl
      simp only [valueChunks, isNullParam, Bool.false_eq_true, if_false,
        writeObj, paramsSize, List.map_cons, List.sum_cons, ih]
      omega
    | .pbool b =>
      have hs := writeObj_size (.pbool b) _ _ _ rfl
      simp only [valueChunks, isNullParam, Bool.false_eq_true, if_false,
        writeObj, paramsSize, List.map_cons, List.sum_cons, ih]
      omega
    | .pbytes l =>
      have hs := writeObj_size (.pbytes l) _ _ _ rfl
      simp only [valueChunks, isNullParam, Bool.false_eq_true, if_false,
        writeObj, paramsSize, List.map_cons, List.sum_cons, List.length_append,
        ih]
    | .pstr l =>
      have hs := writeObj_size (.pstr l) _ _ _ rfl
      simp only [valueChunks, isNullParam, Bool.false_eq_true, if_false,
        writeObj, paramsSize, List.map_cons, List.sum_cons, List.length_append,
        ih]
    | .ptime y mo d hh mi s micro =>
      have hs := writeObj_size (.ptime y mo d hh mi s micro) _ _ _ rfl
      simp only [valueChunks, isNullParam, Bool.false_eq_true, if_false,
        writeObj, paramsSize, List.map_cons, List.sum_cons, ih]
      omega

theorem querySize_ge (params : List PVal) : 10 ≤ querySize params := by
  rw [querySize]
  split_ifs <;> omega

/-- C9: when the parameter list matches the statement's input count and
every parameter has a supported shape (the `PVal` constructors), the
packet size `sendQuery` pre-computes with the counting writer equals
the bytes written between `BeginPacket` and `EndPacket` (4-byte header
plus `querySize` payload bytes), and the whole send returns `.ok`: none
of the miscalculated-packet-size panics in `BeginPacket`, `Write` or
`EndPacket` is reached. -/
theorem C9_size_precomputation (fuel : Nat) (c0 : WConn) (stid numInputs : Nat)
    (params : List PVal)
    (hni : numInputs = params.length)
    (hrem0 : c0.curPacketSizeRemaining = 0) (hcap0 : c0.writeCap = 0)
    (hf : 3 ≤ fuel) (hsz : querySize params ≤ c0.maxSend) :
    ∃ c', sendQuery fuel c0 stid numInputs params = .ok c' ∧
      c'.wire.length = c0.wire.length + (4 + querySize params) ∧
      c'.curPacketSizeRemaining = 0 ∧ c'.writeCap = 0 := by
  have h10 : (23 :: (leBytes 4 stid ++ [0, 1, 0, 0, 0])).length = 10 := by
    simp [leBytes_length]
  have hq10 := querySize_ge params
  have hBegin : connBeginPacket { c0 with seqId := 0 } (querySize params) =
      .ok ⟨c0.maxSend, querySize params, 0, 0, c0.wire⟩ := by
    rw [connBeginPacket,
      if_neg (by push_neg; refine ⟨by dsimp only; omega, by omega,
        by dsimp only; omega⟩)]
    rw [hcap0]
  have hHdr : connWrite fuel ⟨c0.maxSend, querySize params, 0, 0, c0.wire⟩
      (23 :: (leBytes 4 stid ++ [0, 1, 0, 0, 0])) =
      .ok ⟨c0.maxSend, querySize params - 10, querySize params - 10, 1,
        c0.wire ++ [querySize params % 256, querySize params / 2 ^ 8 % 256,
          querySize params / 2 ^ 16 % 256, 0] ++
        (23 :: (leBytes 4 stid ++ [0, 1, 0, 0, 0]))⟩ := by
    rw [connWrite_open fuel _ _ hf (by rw [h10]; norm_num) rfl
      (by dsimp only; omega) (by dsimp only; exact hsz)]
    exact congrArg Except.ok (by simp only [WConn.mk.injEq, h10])
  rw [sendQuery.eq_def]
  rw [if_neg (by omega)]
  dsimp only
  rw [sizeOfParams_eq]
  dsimp only
  rw [show (1 + 4 + 1 + 4 + if 0 < params.length then
      (params.length + 7) / 8 + 1 + params.length * 2 + paramsSize params
      else 0) = querySize params from rfl]
  rw [hBegin]
  dsimp only
  rw [hHdr]
  dsimp only
  by_cases hL : params.length = 0
  · rw [if_pos hL]
    have hS10 : querySize params = 10 := by
      rw [querySize, if_neg (by omega)]
    rw [connEndPacket, if_neg (by push_neg; exact ⟨by dsimp only; omega,
      by dsimp only; omega⟩)]
    refine ⟨_, rfl, ?_, by dsimp only; omega, by dsimp only; omega⟩
    dsimp only
    simp only [List.length_append, h10, List.length_cons, List.length_nil]
    omega
  · rw [if_neg hL]
    have hSB : querySize params = 10 + ((params.length + 7) / 8 + 1 +
        params.length * 2 + paramsSize params) := by
      rw [querySize, if_pos (by omega)]
    set S := querySize params with hSdef
    set L := params.length with hLdef
    set m := (L + 7) / 8 with hmdef
    set P := paramsSize params with hPdef
    set W1 := c0.wire ++ [S % 256, S / 2 ^ 8 % 256, S / 2 ^ 16 % 256, 0] ++
      (23 :: (leBytes 4 stid ++ [0, 1, 0, 0, 0])) with hW1
    have hs1 := maskChunks_sum params m
    have hMask := writeBytesSeq_run fuel
      ((List.range m).map (fun i => [nullMaskByte params i]))
      ⟨c0.maxSend, S - 10, S - 10, 1, W1⟩ (by omega)
      (by dsimp only; rw [hs1]; omega) (by dsimp only; exact Nat.le_refl _)
    rw [hs1] at hMask
    dsimp only at hMask
    rw [hMask]
    dsimp only
    have hBound := connWrite_fit fuel
      ⟨c0.maxSend, S - 10 - m, S - 10 - m, 1,
        W1 ++ ((List.range m).map (fun i => [nullMaskByte params i])).flatten⟩
      [1] (by omega) (by norm_num)
      (by show (1 : Nat) ≤ S - 10 - m; omega)
      (by show (1 : Nat) ≤ S - 10 - m; omega)
    simp only [List.length_singleton] at hBound
    rw [hBound]
    dsimp only
    have hs2 := typeChunks_sum params
    have hTypes := writeBytesSeq_run fuel
      (params.map (fun p => [ftypeOf p, 0]))
      ⟨c0.maxSend, S - 10 - m - 1, S - 10 - m - 1, 1,
        W1 ++ ((List.range m).map (fun i => [nullMaskByte params i])).flatten
          ++ [1]⟩
      (by omega) (by dsimp only; rw [hs2]; omega)
      (by dsimp only; exact Nat.le_refl _)
    rw [hs2] at hTypes
    dsimp only at hTypes
    rw [hTypes]
    dsimp only
    have hs3 := valueChunks_sum params
    have hVals := writeBytesSeq_run fuel (valueChunks params)
      ⟨c0.maxSend, S - 10 - m - 1 - 2 * L, S - 10 - m - 1 - 2 * L, 1,
        W1 ++ ((List.range m).map (fun i => [nullMaskByte params i])).flatten
          ++ [1] ++ ((params.map (fun p => [ftypeOf p, 0])).flatten)⟩
      (by omega) (by dsimp only; rw [hs3]; omega)
      (by dsimp only; exact Nat.le_refl _)
    rw [hs3] at hVals
    dsimp only at hVals
    rw [hVals]
    dsimp only
    rw [connEndPacket, if_neg (by push_neg; exact ⟨by dsimp only; omega,
      by dsimp only; omega⟩)]
    refine ⟨_, rfl, ?_, by dsimp only; omega, by dsimp only; omega⟩
    have hW1len : W1.length = c0.wire.length + 14 := by
      rw [hW1]
      simp only [List.length_append, List.length_cons, List.length_nil,
        leBytes_length]
    dsimp only
    simp only [List.length_append, List.length_cons, List.length_nil,
      leBytes_length, List.length_flatten, hs1, hs2, hs3]
    omega

/-- Witness for C9: an int64 parameter and a nil parameter on a fresh
connection. -/
theorem C9_size_precomputation_witness :
    ∃ c', sendQuery 3 ⟨16777215, 0, 0, 5, []⟩ 1 2 [.pint 7, .pnull] =
        .ok c' ∧
      c'.wire.length = (⟨16777215, 0, 0, 5, []⟩ : WConn).wire.length +
        (4 + querySize [.pint 7, .pnull]) ∧
      c'.curPacketSizeRemaining = 0 ∧ c'.writeCap = 0 :=
  C9_size_precomputation 3 ⟨16777215, 0, 0, 5, []⟩ 1 2 [.pint 7, .pnull]
    (by decide) rfl rfl (by norm_num) (by decide)
